import Mathlib

/-!
Verification of the a11y-forge signature-based source localization and
patch application engine.

Source text is modelled as `List Char`.  TypeScript optional string fields
become `Option String`; records become association lists; absent optional
collections become `[]` (observationally equivalent under the code's
truthiness guards).  External parsers (cheerio, jscodeshift) are modelled as
function parameters supplying the location data the code reads from them.
-/

/-- Whitespace test backing the JS `trim()` model. -/
def isWsChar (c : Char) : Bool :=
  c == ' ' || c == '\t' || c == '\n' || c == '\r'

/-- Model of JS `String.prototype.trim` on character lists. -/
def trimChars (l : List Char) : List Char :=
  ((l.dropWhile isWsChar).reverse.dropWhile isWsChar).reverse

/-- Model of JS `String.prototype.toLowerCase` (ASCII) on character lists. -/
def lowerChars (l : List Char) : List Char := l.map Char.toLower

/-- Model of JS `a.includes(b)`: `b` occurs contiguously inside `a`. -/
def jsIncludes (a b : List Char) : Bool := decide (List.IsInfix b a)

/-- Runtime fingerprint of a DOM element (src/types/index.ts `Signature`).
Only the fields read by the scorer are kept; `structure` is renamed
`structureTags` (Lean keyword). -/
structure Signature where
  tag : String
  text : Option String
  classes : List String
  attributes : List (String × String)
  structureTags : List String
  deriving DecidableEq

/-- One element found while scanning a source file
(src/core/search/scorer.ts `CandidateNode`); the opaque `originalNode`
AST handle is omitted. -/
structure CandidateNode where
  tag : String
  text : Option String
  classes : List String
  attributes : List (String × String)
  locLine : Nat
  locColumn : Nat
  closingLocation : Option (Nat × Nat)
  file : String
  deriving DecidableEq

/-- JS record lookup `attrs[key]` on the association-list model. -/
def lookupAttr (attrs : List (String × String)) (key : String) : Option String :=
  (attrs.find? (fun kv => kv.1 == key)).map (fun kv => kv.2)

namespace Scorer

/-- `s.toLowerCase()` as a character list, used for tag comparison. -/
def lowerStr (s : String) : List Char := lowerChars s.data

/-- Step 2 of `Scorer.score`: text evidence.  The JS guard
`if (signature.text && candidate.text)` requires both strings present and
non-empty (empty strings are falsy). -/
def textScore (sigText candText : Option String) : Nat :=
  match sigText, candText with
  | some st, some ct =>
    if st = "" ∨ ct = "" then 0
    else
      let s := lowerChars (trimChars st.data)
      let c := lowerChars (trimChars ct.data)
      if s = c then 50
      else if jsIncludes c s || jsIncludes s c then 20
      else 0
  | _, _ => 0

/-- Step 3 of `Scorer.score`: id evidence.  The JS guard
`signature.attributes?.id && candidate.attributes?.id` requires both ids
present and non-empty before the exact (case-sensitive) comparison. -/
def idScore (sig cand : List (String × String)) : Nat :=
  match lookupAttr sig "id", lookupAttr cand "id" with
  | some si, some ci => if si ≠ "" ∧ ci ≠ "" ∧ si = ci then 100 else 0
  | _, _ => 0

/-- Step 4 of `Scorer.score`: `+5` per signature class found in the
candidate's class list. -/
def classScore (sigClasses candClasses : List String) : Nat :=
  5 * (sigClasses.filter (fun c => candClasses.contains c)).length

/-- Step 5 of `Scorer.score`: `+10` per signature attribute entry (key not
`class`/`id`) whose value the candidate maps the same key to. -/
def attrScore (sig cand : List (String × String)) : Nat :=
  10 * (sig.filter (fun kv =>
    !(kv.1 == "class") && !(kv.1 == "id") && (lookupAttr cand kv.1 == some kv.2))).length

/-- src/core/search/scorer.ts `Scorer.score`: hard tag filter, then the sum
of the evidence weights. -/
def score (sig : Signature) (cand : CandidateNode) : Nat :=
  if lowerStr sig.tag = lowerStr cand.tag then
    10 + textScore sig.text cand.text + idScore sig.attributes cand.attributes
      + classScore sig.classes cand.classes + attrScore sig.attributes cand.attributes
  else 0

end Scorer

/-- src/core/search/index.ts `SearchResult`. -/
structure SearchResult where
  file : String
  line : Nat
  column : Nat
  score : Nat
  node : CandidateNode
  deriving DecidableEq

namespace SourceSearcher

/-- Body of the inner candidate loop of `SourceSearcher.find`:
`if (score > 0) { if (!bestMatch || score > bestMatch.score) ... }`. -/
def considerCandidate (sig : Signature) (file : String)
    (best : Option SearchResult) (cand : CandidateNode) : Option SearchResult :=
  let s := Scorer.score sig cand
  if s > 0 then
    match best with
    | none => some ⟨file, cand.locLine, cand.locColumn, s, cand⟩
    | some bm =>
      if s > bm.score then some ⟨file, cand.locLine, cand.locColumn, s, cand⟩ else best
  else best

/-- Scoring loop over one file's extracted candidates. -/
def scanFile (sig : Signature) (best : Option SearchResult) (file : String)
    (cands : List CandidateNode) : Option SearchResult :=
  cands.foldl (considerCandidate sig file) best

/-- src/core/search/index.ts `SourceSearcher.find`.  Each scanned file is a
pair of its path and the extractor outcome: `Except.error` models a thrown
parse failure (caught and skipped by the `try/catch`), `Except.ok` the
extracted candidate list. -/
def find (sig : Signature)
    (files : List (String × Except String (List CandidateNode))) :
    Option SearchResult :=
  files.foldl (fun best fr =>
    match fr.2 with
    | Except.error _ => best
    | Except.ok cands => scanFile sig best fr.1 cands) none

/-- Candidates contributed by one scanned file (empty on parse failure). -/
def candsOf (fr : String × Except String (List CandidateNode)) :
    List CandidateNode :=
  match fr.2 with
  | Except.error _ => []
  | Except.ok cands => cands

end SourceSearcher

/-! ## Lemmas about the scorer and searcher -/

namespace Scorer

theorem textScore_le (a b : Option String) : textScore a b ≤ 50 := by
  unfold textScore
  cases a with
  | none => simp
  | some st =>
    cases b with
    | none => simp
    | some ct => dsimp only; split <;> [omega; (split <;> [omega; (split <;> omega)])]

theorem idScore_eq_zero_of_ne (sig cand : List (String × String)) (idv : String)
    (hsig : lookupAttr sig "id" = some idv)
    (hcand : lookupAttr cand "id" ≠ some idv) :
    idScore sig cand = 0 := by
  unfold idScore
  rw [hsig]
  cases hc : lookupAttr cand "id" with
  | none => simp
  | some ci =>
    have : ci ≠ idv := fun h => hcand (by rw [hc, h])
    simp only [ite_eq_right_iff]
    intro hcontra
    exact absurd hcontra.2.2.symm this

theorem idScore_eq_of_match (sig cand : List (String × String)) (idv : String)
    (hsig : lookupAttr sig "id" = some idv)
    (hcand : lookupAttr cand "id" = some idv)
    (hne : idv ≠ "") :
    idScore sig cand = 100 := by
  unfold idScore
  rw [hsig, hcand]
  simp [hne]

/-- The class-overlap count of the scorer equals the cardinality of the
intersection of the two class sets, provided the signature's class list is
duplicate-free (the data model declares it a set). -/
theorem classScore_eq_card (sigClasses candClasses : List String)
    (h : sigClasses.Nodup) :
    classScore sigClasses candClasses
      = 5 * (sigClasses.toFinset ∩ candClasses.toFinset).card := by
  unfold classScore
  congr 1
  have hfilter : (sigClasses.filter (fun c => candClasses.contains c)).Nodup :=
    h.filter _
  rw [← List.toFinset_card_of_nodup hfilter, List.toFinset_filter]
  congr 1
  ext x
  simp [List.elem_iff, Finset.mem_filter, List.mem_toFinset]

theorem classScore_le (sigClasses candClasses : List String)
    (hnd : sigClasses.Nodup)
    (h : (sigClasses.toFinset ∩ candClasses.toFinset).card ≤ 9) :
    classScore sigClasses candClasses ≤ 45 := by
  rw [classScore_eq_card _ _ hnd]
  omega

/-- In an association list with duplicate-free keys, every entry is found by
lookup of its own key. -/
theorem lookupAttr_eq_of_mem (attrs : List (String × String))
    (kv : String × String) (hmem : kv ∈ attrs)
    (hnd : (attrs.map Prod.fst).Nodup) :
    lookupAttr attrs kv.1 = some kv.2 := by
  induction attrs with
  | nil => cases hmem
  | cons a rest ih =>
    rcases List.mem_cons.mp hmem with h | h
    · subst h
      simp [lookupAttr, List.find?]
    · have hnd' := (List.nodup_cons.mp hnd)
      have hne : a.1 ≠ kv.1 := by
        intro hcontra
        exact hnd'.1 (hcontra ▸ List.mem_map_of_mem Prod.fst h)
      have hrec := ih h hnd'.2
      unfold lookupAttr at hrec ⊢
      rw [List.find?_cons_of_neg _ (by simpa using hne)]
      exact hrec

theorem attrScore_eq_zero (sig cand : List (String × String))
    (hka : (sig.map Prod.fst).Nodup)
    (hq : ∀ k v, lookupAttr sig k = some v → k ≠ "class" → k ≠ "id" →
      lookupAttr cand k ≠ some v) :
    attrScore sig cand = 0 := by
  unfold attrScore
  have : sig.filter (fun kv =>
      !(kv.1 == "class") && !(kv.1 == "id") && (lookupAttr cand kv.1 == some kv.2)) = [] := by
    rw [List.filter_eq_nil_iff]
    intro kv hkv h
    simp only [Bool.and_eq_true, Bool.not_eq_true', beq_eq_false_iff_ne, ne_eq,
      beq_iff_eq] at h
    exact hq kv.1 kv.2 (lookupAttr_eq_of_mem sig kv hkv hka) h.1.1 h.1.2 h.2
  rw [this]
  rfl

end Scorer

/-- A candidate that is "quiet" towards a signature with id value `idv`: its
own id differs, it shares at most 9 classes with the signature, and no
non-class/non-id attribute value. -/
def QuietCandidate (sig : Signature) (idv : String) (c : CandidateNode) : Prop :=
  lookupAttr c.attributes "id" ≠ some idv ∧
  (sig.classes.toFinset ∩ c.classes.toFinset).card ≤ 9 ∧
  ∀ k v, lookupAttr sig.attributes k = some v → k ≠ "class" → k ≠ "id" →
    lookupAttr c.attributes k ≠ some v

theorem score_le_of_quiet (sig : Signature) (idv : String) (c : CandidateNode)
    (hnd : sig.classes.Nodup) (hka : (sig.attributes.map Prod.fst).Nodup)
    (hid : lookupAttr sig.attributes "id" = some idv)
    (hq : QuietCandidate sig idv c) :
    Scorer.score sig c ≤ 105 := by
  unfold Scorer.score
  split
  · have h1 := Scorer.textScore_le sig.text c.text
    have h2 := Scorer.idScore_eq_zero_of_ne sig.attributes c.attributes idv hid hq.1
    have h3 := Scorer.classScore_le sig.classes c.classes hnd hq.2.1
    have h4 := Scorer.attrScore_eq_zero sig.attributes c.attributes hka hq.2.2
    omega
  · omega

theorem score_ge_of_id_match (sig : Signature) (idv : String) (c : CandidateNode)
    (htag : Scorer.lowerStr sig.tag = Scorer.lowerStr c.tag)
    (hid : lookupAttr sig.attributes "id" = some idv)
    (hcid : lookupAttr c.attributes "id" = some idv)
    (hne : idv ≠ "") :
    110 ≤ Scorer.score sig c := by
  unfold Scorer.score
  rw [if_pos htag, Scorer.idScore_eq_of_match sig.attributes c.attributes idv hid hcid hne]
  omega

namespace SourceSearcher

/-- Running best is absent or scores below `S`. -/
def BestLow (S : Nat) : Option SearchResult → Prop
  | none => True
  | some r => r.score < S

theorem considerCandidate_low (sig : Signature) (f : String)
    (best : Option SearchResult) (cand : CandidateNode) (S : Nat)
    (hc : Scorer.score sig cand < S) (hb : BestLow S best) :
    BestLow S (considerCandidate sig f best cand) := by
  unfold considerCandidate
  cases best with
  | none =>
    dsimp only
    split
    · exact hc
    · trivial
  | some r =>
    dsimp only
    split
    · split
      · exact hc
      · exact hb
    · exact hb

theorem scanFile_low (sig : Signature) (f : String) (cands : List CandidateNode)
    (best : Option SearchResult) (S : Nat)
    (hc : ∀ c ∈ cands, Scorer.score sig c < S) (hb : BestLow S best) :
    BestLow S (scanFile sig best f cands) := by
  induction cands generalizing best with
  | nil => exact hb
  | cons c cs ih =>
    exact ih _ (fun x hx => hc x (List.mem_cons_of_mem _ hx))
      (considerCandidate_low sig f best c S (hc c (List.mem_cons_self c cs)) hb)

theorem considerCandidate_keep (sig : Signature) (f : String) (r : SearchResult)
    (cand : CandidateNode) (hc : Scorer.score sig cand ≤ r.score) :
    considerCandidate sig f (some r) cand = some r := by
  unfold considerCandidate
  dsimp only
  split
  · rw [if_neg (by omega)]
  · rfl

theorem scanFile_keep (sig : Signature) (f : String) (cands : List CandidateNode)
    (r : SearchResult) (hc : ∀ c ∈ cands, Scorer.score sig c ≤ r.score) :
    scanFile sig (some r) f cands = some r := by
  induction cands with
  | nil => rfl
  | cons c cs ih =>
    unfold scanFile
    rw [List.foldl_cons,
      considerCandidate_keep sig f r c (hc c (List.mem_cons_self c cs))]
    exact ih (fun x hx => hc x (List.mem_cons_of_mem _ hx))

theorem considerCandidate_capture (sig : Signature) (f : String)
    (best : Option SearchResult) (target : CandidateNode) (S : Nat)
    (hS : Scorer.score sig target = S) (hpos : 0 < S) (hb : BestLow S best) :
    considerCandidate sig f best target
      = some ⟨f, target.locLine, target.locColumn, S, target⟩ := by
  unfold considerCandidate
  cases best with
  | none => simp [hS, hpos]
  | some r =>
    have hr : r.score < S := hb
    simp only [hS]
    rw [if_pos hpos, if_pos hr]

theorem scanFile_capture (sig : Signature) (f : String)
    (best : Option SearchResult) (cs1 cs2 : List CandidateNode)
    (target : CandidateNode) (S : Nat)
    (hS : Scorer.score sig target = S) (hpos : 0 < S) (hb : BestLow S best)
    (h1 : ∀ c ∈ cs1, Scorer.score sig c < S)
    (h2 : ∀ c ∈ cs2, Scorer.score sig c ≤ S) :
    scanFile sig best f (cs1 ++ target :: cs2)
      = some ⟨f, target.locLine, target.locColumn, S, target⟩ := by
  unfold scanFile
  rw [List.foldl_append, List.foldl_cons]
  have hb1 : BestLow S (scanFile sig best f cs1) := scanFile_low sig f cs1 best S h1 hb
  rw [show List.foldl (considerCandidate sig f) best cs1 = scanFile sig best f cs1 from rfl,
    considerCandidate_capture sig f _ target S hS hpos hb1]
  exact scanFile_keep sig f cs2 ⟨f, target.locLine, target.locColumn, S, target⟩
    (by simpa [hS] using h2)

/-- One step of the file fold of `find`. -/
def findStep (sig : Signature) (best : Option SearchResult)
    (fr : String × Except String (List CandidateNode)) : Option SearchResult :=
  match fr.2 with
  | Except.error _ => best
  | Except.ok cands => scanFile sig best fr.1 cands

theorem find_eq_foldl (sig : Signature)
    (files : List (String × Except String (List CandidateNode))) :
    find sig files = files.foldl (findStep sig) none := by
  unfold find findStep
  rfl

theorem foldl_findStep_low (sig : Signature)
    (files : List (String × Except String (List CandidateNode)))
    (best : Option SearchResult) (S : Nat)
    (hc : ∀ fr ∈ files, ∀ c ∈ candsOf fr, Scorer.score sig c < S)
    (hb : BestLow S best) :
    BestLow S (files.foldl (findStep sig) best) := by
  induction files generalizing best with
  | nil => exact hb
  | cons fr rest ih =>
    rw [List.foldl_cons]
    refine ih _ (fun x hx => hc x (List.mem_cons_of_mem _ hx)) ?_
    unfold findStep
    cases h : fr.2 with
    | error e => exact hb
    | ok cands =>
      exact scanFile_low sig fr.1 cands best S
        (fun c hcc => hc fr (List.mem_cons_self fr rest) c (by simpa [candsOf, h] using hcc)) hb

theorem foldl_findStep_keep (sig : Signature)
    (files : List (String × Except String (List CandidateNode)))
    (r : SearchResult)
    (hc : ∀ fr ∈ files, ∀ c ∈ candsOf fr, Scorer.score sig c ≤ r.score) :
    files.foldl (findStep sig) (some r) = some r := by
  induction files with
  | nil => rfl
  | cons fr rest ih =>
    rw [List.foldl_cons]
    have hstep : findStep sig (some r) fr = some r := by
      unfold findStep
      cases h : fr.2 with
      | error e => rfl
      | ok cands =>
        exact scanFile_keep sig fr.1 cands r
          (fun c hcc => hc fr (List.mem_cons_self fr rest) c (by simpa [candsOf, h] using hcc))
    rw [hstep]
    exact ih (fun x hx => hc x (List.mem_cons_of_mem _ hx))

end SourceSearcher

namespace SourceSearcher

theorem considerCandidate_zero (sig : Signature) (f : String)
    (best : Option SearchResult) (cand : CandidateNode)
    (h : Scorer.score sig cand = 0) :
    considerCandidate sig f best cand = best := by
  unfold considerCandidate
  simp [h]

theorem scanFile_zero (sig : Signature) (f : String) (cands : List CandidateNode)
    (best : Option SearchResult)
    (h : ∀ c ∈ cands, Scorer.score sig c = 0) :
    scanFile sig best f cands = best := by
  induction cands generalizing best with
  | nil => rfl
  | cons c cs ih =>
    unfold scanFile
    rw [List.foldl_cons, considerCandidate_zero sig f best c (h c (List.mem_cons_self c cs))]
    exact ih best (fun x hx => h x (List.mem_cons_of_mem _ hx))

theorem find_none_of_zero (sig : Signature)
    (files : List (String × Except String (List CandidateNode)))
    (h : ∀ fr ∈ files, ∀ c ∈ candsOf fr, Scorer.score sig c = 0) :
    find sig files = none := by
  rw [find_eq_foldl]
  induction files with
  | nil => rfl
  | cons fr rest ih =>
    rw [List.foldl_cons]
    have hstep : findStep sig none fr = none := by
      unfold findStep
      cases hfr : fr.2 with
      | error e => rfl
      | ok cands =>
        exact scanFile_zero sig fr.1 cands none
          (fun c hc => h fr (List.mem_cons_self fr rest) c (by simpa [candsOf, hfr] using hc))
    rw [hstep]
    exact ih (fun x hx => h x (List.mem_cons_of_mem _ hx))

end SourceSearcher

/-- C2: a candidate whose tag differs case-insensitively from the
signature's tag scores `0`, and a signature whose tag matches no candidate's
tag in any scanned file makes `SourceSearcher.find` return none: a score of
0 never becomes or updates the best match. -/
theorem tag_mismatch_hard_filter :
    (∀ (sig : Signature) (cand : CandidateNode),
        Scorer.lowerStr sig.tag ≠ Scorer.lowerStr cand.tag →
        Scorer.score sig cand = 0) ∧
    (∀ (sig : Signature) (files : List (String × Except String (List CandidateNode))),
        (∀ fr ∈ files, ∀ c ∈ SourceSearcher.candsOf fr,
            Scorer.lowerStr sig.tag ≠ Scorer.lowerStr c.tag) →
        SourceSearcher.find sig files = none) := by
  constructor
  · intro sig cand h
    unfold Scorer.score
    rw [if_neg h]
  · intro sig files h
    exact SourceSearcher.find_none_of_zero sig files
      (fun fr hfr c hc => by
        unfold Scorer.score
        rw [if_neg (h fr hfr c hc)])

def c2sig : Signature := ⟨"div", some "hello", ["a"], [("id", "z")], []⟩

def c2cand : CandidateNode :=
  ⟨"span", some "hello", ["a"], [("id", "z")], 1, 0, none, "a.html"⟩

/-- Witness for C2 at a concrete signature and candidate set. -/
theorem tag_mismatch_hard_filter_witness :
    Scorer.score c2sig c2cand = 0 ∧
    SourceSearcher.find c2sig
      [("a.html", Except.ok [c2cand]), ("b.html", Except.error "parse failure")] = none := by
  constructor
  · exact tag_mismatch_hard_filter.1 c2sig c2cand (by decide)
  · exact tag_mismatch_hard_filter.2 c2sig _ (by decide)

/-- C8: a parse failure (extractor exception) in one scanned file never
aborts `SourceSearcher.find` and never changes its result beyond that file
contributing zero candidates: the search over the remaining files is
unchanged. -/
theorem parse_failure_skipped (sig : Signature)
    (pre post : List (String × Except String (List CandidateNode)))
    (f e : String) :
    SourceSearcher.find sig (pre ++ (f, Except.error e) :: post)
      = SourceSearcher.find sig (pre ++ post) := by
  rw [SourceSearcher.find_eq_foldl, SourceSearcher.find_eq_foldl,
    List.foldl_append, List.foldl_append, List.foldl_cons]
  rfl

def c1sig : Signature :=
  ⟨"div", some "Go",
    ["k01", "k02", "k03", "k04", "k05", "k06", "k07", "k08", "k09", "k10", "k11"],
    [("id", "x")], []⟩

def c1target : CandidateNode := ⟨"div", none, [], [("id", "x")], 1, 0, none, "a.tsx"⟩

def c1other : CandidateNode :=
  ⟨"div", some "Go",
    ["k01", "k02", "k03", "k04", "k05", "k06", "k07", "k08", "k09", "k10", "k11"],
    [("id", "y")], 2, 0, none, "a.tsx"⟩

def c1files : List (String × Except String (List CandidateNode)) :=
  [("a.tsx", Except.ok [c1target, c1other])]

/-- C1 is false as stated: the signature has non-empty id "x", exactly one
candidate (`c1target`) carries id "x", yet `find` returns the other
candidate, whose text and class overlap (score 115) beats the id match
(score 110). -/
theorem find_unique_id_counterexample :
    lookupAttr c1sig.attributes "id" = some "x" ∧ "x" ≠ "" ∧
    lookupAttr c1target.attributes "id" = some "x" ∧
    lookupAttr c1other.attributes "id" = some "y" ∧ c1other ≠ c1target ∧
    Scorer.score c1sig c1target = 110 ∧ Scorer.score c1sig c1other = 115 ∧
    (SourceSearcher.find c1sig c1files).map SearchResult.node = some c1other := by
  decide

/-- C1 amended: for every signature carrying a non-empty `id` and a tag
matching the target candidate's tag case-insensitively, if exactly one
scanned candidate carries that id value and every other candidate shares at
most 9 classes with the signature and no non-class/non-id attribute value,
then `find` returns the id-matching candidate (with its location and score),
regardless of how the texts differ. -/
theorem find_unique_id_amended
    (sig : Signature) (idv : String)
    (pre post : List (String × Except String (List CandidateNode)))
    (f0 : String) (cs1 cs2 : List CandidateNode) (target : CandidateNode)
    (hnd : sig.classes.Nodup) (hka : (sig.attributes.map Prod.fst).Nodup)
    (hid : lookupAttr sig.attributes "id" = some idv) (hne : idv ≠ "")
    (htag : Scorer.lowerStr sig.tag = Scorer.lowerStr target.tag)
    (htid : lookupAttr target.attributes "id" = some idv)
    (hquiet : ∀ fr ∈ pre ++ (f0, Except.ok (cs1 ++ target :: cs2)) :: post,
        ∀ c ∈ SourceSearcher.candsOf fr, c ≠ target → QuietCandidate sig idv c)
    (hpre : ∀ fr ∈ pre, target ∉ SourceSearcher.candsOf fr)
    (hcs1 : target ∉ cs1) :
    SourceSearcher.find sig (pre ++ (f0, Except.ok (cs1 ++ target :: cs2)) :: post)
      = some ⟨f0, target.locLine, target.locColumn, Scorer.score sig target, target⟩ := by
  have hSge : 110 ≤ Scorer.score sig target :=
    score_ge_of_id_match sig idv target htag hid htid hne
  have hquietlt : ∀ c, QuietCandidate sig idv c →
      Scorer.score sig c < Scorer.score sig target := by
    intro c hq
    have := score_le_of_quiet sig idv c hnd hka hid hq
    omega
  have hmid : ((f0, Except.ok (cs1 ++ target :: cs2))
      : String × Except String (List CandidateNode))
        ∈ pre ++ (f0, Except.ok (cs1 ++ target :: cs2)) :: post :=
    List.mem_append_right _ (List.mem_cons_self _ _)
  rw [SourceSearcher.find_eq_foldl, List.foldl_append, List.foldl_cons]
  have hlow : SourceSearcher.BestLow (Scorer.score sig target)
      (pre.foldl (SourceSearcher.findStep sig) none) := by
    apply SourceSearcher.foldl_findStep_low sig pre none (Scorer.score sig target)
    · intro fr hfr c hc
      refine hquietlt c (hquiet fr (List.mem_append_left _ hfr) c hc ?_)
      intro hceq
      exact hpre fr hfr (hceq ▸ hc)
    · trivial
  have hcap : SourceSearcher.findStep sig (pre.foldl (SourceSearcher.findStep sig) none)
      (f0, Except.ok (cs1 ++ target :: cs2))
      = some ⟨f0, target.locLine, target.locColumn, Scorer.score sig target, target⟩ := by
    show SourceSearcher.scanFile sig (pre.foldl (SourceSearcher.findStep sig) none)
      f0 (cs1 ++ target :: cs2) = _
    apply SourceSearcher.scanFile_capture sig f0 _ cs1 cs2 target (Scorer.score sig target)
      rfl (by omega) hlow
    · intro c hc
      refine hquietlt c (hquiet _ hmid c ?_ ?_)
      · show c ∈ SourceSearcher.candsOf (f0, Except.ok (cs1 ++ target :: cs2))
        exact List.mem_append_left _ hc
      · intro hceq
        exact hcs1 (hceq ▸ hc)
    · intro c hc
      by_cases hceq : c = target
      · rw [hceq]
      · refine le_of_lt (hquietlt c (hquiet _ hmid c ?_ hceq))
        show c ∈ SourceSearcher.candsOf (f0, Except.ok (cs1 ++ target :: cs2))
        exact List.mem_append_right _ (List.mem_cons_of_mem _ hc)
  rw [hcap]
  apply SourceSearcher.foldl_findStep_keep
  intro fr hfr c hc
  show Scorer.score sig c ≤ Scorer.score sig target
  by_cases hceq : c = target
  · rw [hceq]
  · exact le_of_lt (hquietlt c
      (hquiet fr (List.mem_append_right _ (List.mem_cons_of_mem _ hfr)) c hc hceq))

def c1wsig : Signature := ⟨"div", none, [], [("id", "w")], []⟩

def c1wtarget : CandidateNode := ⟨"div", none, [], [("id", "w")], 5, 2, none, "w.tsx"⟩

/-- Witness for the amended C1 at a concrete signature and candidate set. -/
theorem find_unique_id_amended_witness :
    SourceSearcher.find c1wsig [("w.tsx", Except.ok [c1wtarget])]
      = some ⟨"w.tsx", c1wtarget.locLine, c1wtarget.locColumn,
          Scorer.score c1wsig c1wtarget, c1wtarget⟩ := by
  have h := find_unique_id_amended c1wsig "w" [] [] "w.tsx" [] [] c1wtarget
    (by decide) (by decide) (by decide) (by decide) (by decide) (by decide)
    (by
      intro fr hfr c hc hne
      exfalso
      apply hne
      have hfr' : fr = ("w.tsx", Except.ok [c1wtarget]) := by simpa using hfr
      rw [hfr'] at hc
      simpa [SourceSearcher.candsOf] using hc)
    (by intro fr hfr; simp at hfr)
    (by simp)
  simpa using h

/-- Text clause of C3's claimed formula, following the claim's words: `+50`
if the trimmed texts match exactly case-insensitively, else `+20` if one
trimmed text contains the other, else `+0` (no non-emptiness requirement). -/
def claimTextScore (sigText candText : Option String) : Nat :=
  match sigText, candText with
  | some st, some ct =>
    let s := lowerChars (trimChars st.data)
    let c := lowerChars (trimChars ct.data)
    if s = c then 50
    else if jsIncludes c s || jsIncludes s c then 20
    else 0
  | _, _ => 0

/-- Id clause of C3's claimed formula, following the claim's words: `+100`
for an exact `id` match (no non-emptiness requirement). -/
def claimIdScore (sig cand : List (String × String)) : Nat :=
  match lookupAttr sig "id", lookupAttr cand "id" with
  | some si, some ci => if si = ci then 100 else 0
  | _, _ => 0

/-- Number of non-`class`, non-`id` attribute keys whose values are equal in
both attribute maps (C3's attribute clause). -/
def claimAttrCount (sig cand : List (String × String)) : Nat :=
  ((sig.map Prod.fst).toFinset.filter (fun k =>
    ¬(k = "class") ∧ ¬(k = "id") ∧
      lookupAttr cand k = lookupAttr sig k ∧ (lookupAttr sig k).isSome)).card

/-- C3's claimed score formula for a tag-matching pair. -/
def claimScore (sig : Signature) (cand : CandidateNode) : Nat :=
  10 + claimTextScore sig.text cand.text + claimIdScore sig.attributes cand.attributes
    + 5 * (sig.classes.toFinset ∩ cand.classes.toFinset).card
    + 10 * claimAttrCount sig.attributes cand.attributes

def c3sig : Signature := ⟨"div", some "", [], [("id", "")], []⟩

def c3cand : CandidateNode := ⟨"div", some "", [], [("id", "")], 1, 0, none, "f.html"⟩

/-- C3 is false as stated: with both texts the empty string and both ids the
empty string, the claimed formula yields 160 (50 for matching trimmed texts
plus 100 for an exact id match), but `Scorer.score` yields 10: the JS
truthiness guards skip text and id scoring for empty strings. -/
theorem score_formula_counterexample :
    Scorer.lowerStr c3sig.tag = Scorer.lowerStr c3cand.tag ∧
    claimScore c3sig c3cand = 160 ∧ Scorer.score c3sig c3cand = 10 ∧
    Scorer.score c3sig c3cand ≠ claimScore c3sig c3cand := by
  decide

/-- Text clause of the amended C3: scoring applies only when both texts are
present and non-empty. -/
def amendedTextScore (sigText candText : Option String) : Nat :=
  match sigText, candText with
  | some st, some ct =>
    if st ≠ "" ∧ ct ≠ "" then
      let s := lowerChars (trimChars st.data)
      let c := lowerChars (trimChars ct.data)
      if s = c then 50
      else if jsIncludes c s || jsIncludes s c then 20
      else 0
    else 0
  | _, _ => 0

theorem amendedTextScore_eq (a b : Option String) :
    amendedTextScore a b = Scorer.textScore a b := by
  unfold amendedTextScore Scorer.textScore
  cases a with
  | none => rfl
  | some st =>
    cases b with
    | none => rfl
    | some ct =>
      dsimp only
      by_cases h1 : st = "" <;> by_cases h2 : ct = "" <;> simp [h1, h2]

theorem attrScore_eq_claimAttrCount (sig cand : List (String × String))
    (hka : (sig.map Prod.fst).Nodup) :
    Scorer.attrScore sig cand = 10 * claimAttrCount sig cand := by
  unfold Scorer.attrScore claimAttrCount
  congr 1
  have hsub : List.Sublist ((sig.filter (fun kv =>
      !(kv.1 == "class") && !(kv.1 == "id") && (lookupAttr cand kv.1 == some kv.2))).map
        Prod.fst) (sig.map Prod.fst) :=
    (List.filter_sublist _).map _
  have hnd : ((sig.filter (fun kv =>
      !(kv.1 == "class") && !(kv.1 == "id") && (lookupAttr cand kv.1 == some kv.2))).map
        Prod.fst).Nodup := hka.sublist hsub
  rw [← List.length_map (sig.filter _) Prod.fst, ← List.toFinset_card_of_nodup hnd]
  congr 1
  ext k
  simp only [List.mem_toFinset, List.mem_map, List.mem_filter, Finset.mem_filter,
    Bool.and_eq_true, Bool.not_eq_true', beq_eq_false_iff_ne, ne_eq, beq_iff_eq]
  constructor
  · rintro ⟨kv, ⟨hmem, ⟨hclass, hid⟩, hlook⟩, hk⟩
    subst hk
    have hsig := Scorer.lookupAttr_eq_of_mem sig kv hmem hka
    exact ⟨⟨kv, hmem, rfl⟩, hclass, hid, by rw [hsig, hlook], by rw [hsig]; rfl⟩
  · rintro ⟨⟨kv, hmem, hk⟩, hclass, hid, heq, _⟩
    subst hk
    have hsig := Scorer.lookupAttr_eq_of_mem sig kv hmem hka
    exact ⟨kv, ⟨hmem, ⟨hclass, hid⟩, by rw [heq, hsig]⟩, rfl⟩

/-- C3 amended: for tag-matching pairs, the score is 10 plus the text clause
restricted to present non-empty texts, plus 100 for an exact match of
non-empty ids, plus 5 per shared class, plus 10 per shared non-class/non-id
attribute pair — assuming the signature's class list and attribute keys are
duplicate-free (the data model declares them a set and a map). -/
theorem score_formula_amended (sig : Signature) (cand : CandidateNode)
    (htag : Scorer.lowerStr sig.tag = Scorer.lowerStr cand.tag)
    (hnd : sig.classes.Nodup) (hka : (sig.attributes.map Prod.fst).Nodup) :
    Scorer.score sig cand
      = 10 + amendedTextScore sig.text cand.text
        + Scorer.idScore sig.attributes cand.attributes
        + 5 * (sig.classes.toFinset ∩ cand.classes.toFinset).card
        + 10 * claimAttrCount sig.attributes cand.attributes := by
  unfold Scorer.score
  rw [if_pos htag, amendedTextScore_eq, Scorer.classScore_eq_card _ _ hnd,
    attrScore_eq_claimAttrCount _ _ hka]

def c3wsig : Signature :=
  ⟨"div", some " Hello ", ["a", "b"], [("id", "i1"), ("role", "button"), ("class", "x")], []⟩

def c3wcand : CandidateNode :=
  ⟨"DIV", some "hello world", ["b", "a"], [("id", "i1"), ("role", "button")],
    1, 2, none, "f.tsx"⟩

/-- Witness for the amended C3 at a concrete pair scoring
10 + 20 + 100 + 10 + 10. -/
theorem score_formula_amended_witness :
    Scorer.score c3wsig c3wcand
      = 10 + amendedTextScore c3wsig.text c3wcand.text
        + Scorer.idScore c3wsig.attributes c3wcand.attributes
        + 5 * (c3wsig.classes.toFinset ∩ c3wcand.classes.toFinset).card
        + 10 * claimAttrCount c3wsig.attributes c3wcand.attributes :=
  score_formula_amended c3wsig c3wcand (by decide) (by decide) (by decide)

/-! ## Replacements and splicing (offset-based patcher) -/

/-- Internal unit of text surgery of the offset-based patcher: a half-open
range `[start, stop)` of the original text plus a replacement string
(the `Replacement` interface of the targeted patcher; `end` is a Lean
keyword, renamed `stop`). -/
structure Replacement where
  start : Nat
  stop : Nat
  content : List Char
  deriving DecidableEq

/-- One splice step of the patcher's final loop:
`substring(0, start) + content + substring(end)`. -/
def applyOne (t : List Char) (r : Replacement) : List Char :=
  t.take r.start ++ r.content ++ t.drop r.stop

/-- Stable insertion into a list sorted by descending start offset. -/
def insertDesc (r : Replacement) : List Replacement → List Replacement
  | [] => [r]
  | x :: xs => if r.start < x.start then x :: insertDesc r xs else r :: x :: xs

/-- The patcher's `replacements.sort((a, b) => b.start - a.start)`:
a stable sort by descending start offset. -/
def sortDesc : List Replacement → List Replacement
  | [] => []
  | x :: xs => insertDesc x (sortDesc xs)

/-- The one-pass splice of the offset-based patcher: sort by descending
start offset, then splice sequentially. -/
def spliceAll (t : List Char) (reps : List Replacement) : List Char :=
  (sortDesc reps).foldl applyOne t

/-- Offset re-resolution of a pending replacement after `r` was applied in
an earlier pass: ranges at or after the end of `r` shift by the size change
of `r`; ranges before `r` are untouched. -/
def shiftAfter (r r' : Replacement) : Replacement :=
  if r.stop ≤ r'.start then
    ⟨r'.start - (r.stop - r.start) + r.content.length,
     r'.stop - (r.stop - r.start) + r.content.length, r'.content⟩
  else r'

/-- Fuel-indexed recursion underlying `applySeq` (the fuel is the list
length, which re-resolution preserves). -/
def applySeqFuel : Nat → List Char → List Replacement → List Char
  | _, t, [] => t
  | 0, t, _ => t
  | Nat.succ n, t, r :: rs => applySeqFuel n (applyOne t r) (rs.map (shiftAfter r))

/-- Applying replacements one file-write per pass: each pass splices one
replacement into the current text and the remaining replacements' offsets
are re-resolved against the new text. -/
def applySeq (t : List Char) (l : List Replacement) : List Char :=
  applySeqFuel l.length t l

theorem applySeq_nil (t : List Char) : applySeq t [] = t := rfl

theorem applySeq_cons (t : List Char) (r : Replacement) (rs : List Replacement) :
    applySeq t (r :: rs) = applySeq (applyOne t r) (rs.map (shiftAfter r)) := by
  unfold applySeq
  rw [List.length_map]
  rfl

/-- The literal reading of C7's "non-overlapping half-open ranges": the
position sets `[start, stop)` are disjoint. -/
def RangesDisjoint (r r' : Replacement) : Prop :=
  ∀ i : Nat, ¬((r.start ≤ i ∧ i < r.stop) ∧ (r'.start ≤ i ∧ i < r'.stop))

/-- Amended non-interference condition: the ranges are separated as
intervals and no two replacements share a start offset. -/
def Separated (r r' : Replacement) : Prop :=
  (r.stop ≤ r'.start ∨ r'.stop ≤ r.start) ∧ r.start ≠ r'.start

theorem Separated.symm2 {r r' : Replacement} (h : Separated r r') : Separated r' r :=
  ⟨h.1.symm, h.2.symm⟩

/-- The range of `r` lies inside the text `t`. -/
def WfIn (t : List Char) (r : Replacement) : Prop :=
  r.start ≤ r.stop ∧ r.stop ≤ t.length

theorem length_applyOne (t : List Char) (r : Replacement) (h : WfIn t r) :
    (applyOne t r).length = r.start + r.content.length + (t.length - r.stop) := by
  obtain ⟨h1, h2⟩ := h
  unfold applyOne
  rw [List.length_append, List.length_append, List.length_take, List.length_drop]
  omega

theorem applyOne_after_applyOne (t : List Char) (s1 e1 s2 e2 : Nat) (c1 c2 : List Char)
    (h1 : s1 ≤ e1) (h2 : e1 ≤ s2) (h3 : s2 ≤ e2) (h4 : e2 ≤ t.length) :
    applyOne (applyOne t ⟨s2, e2, c2⟩) ⟨s1, e1, c1⟩
      = t.take s1 ++ c1 ++ (t.drop e1).take (s2 - e1) ++ c2 ++ t.drop e2 := by
  unfold applyOne
  dsimp only
  have hlen : (List.take s2 t).length = s2 := by rw [List.length_take]; omega
  have hA : s1 - s2 = 0 := by omega
  have hB : e1 - s2 = 0 := by omega
  have hmin : min s1 s2 = s1 := by omega
  rw [List.take_append_eq_append_take, List.take_append_eq_append_take,
    List.drop_append_eq_append_drop, List.drop_append_eq_append_drop]
  simp only [List.length_append, hlen, List.take_take]
  rw [show s1 - s2 = 0 from by omega, show s1 - (s2 + c2.length) = 0 from by omega,
    show e1 - s2 = 0 from by omega, show e1 - (s2 + c2.length) = 0 from by omega,
    show min s1 s2 = s1 from by omega, List.drop_take]
  simp [List.append_assoc]

theorem applyOne_shifted (t : List Char) (s1 e1 s2 e2 : Nat) (c1 c2 : List Char)
    (h1 : s1 ≤ e1) (h2 : e1 ≤ s2) (h3 : s2 ≤ e2) (h4 : e2 ≤ t.length) :
    applyOne (applyOne t ⟨s1, e1, c1⟩) (shiftAfter ⟨s1, e1, c1⟩ ⟨s2, e2, c2⟩)
      = t.take s1 ++ c1 ++ (t.drop e1).take (s2 - e1) ++ c2 ++ t.drop e2 := by
  unfold shiftAfter
  rw [if_pos (by dsimp only; omega)]
  unfold applyOne
  dsimp only
  have hlen : (List.take s1 t).length = s1 := by rw [List.length_take]; omega
  have hs2 : s2 - (e1 - s1) + c1.length - s1 = c1.length + (s2 - e1) := by omega
  have he2 : e2 - (e1 - s1) + c1.length - s1 = c1.length + (e2 - e1) := by omega
  rw [List.take_append_eq_append_take, List.take_append_eq_append_take,
    List.drop_append_eq_append_drop, List.drop_append_eq_append_drop]
  simp only [List.length_append, hlen, List.take_take]
  rw [show (s2 - (e1 - s1) + c1.length) ⊓ s1 = s1 from by omega,
    List.take_of_length_le (l := c1) (by omega),
    show s2 - (e1 - s1) + c1.length - (s1 + c1.length) = s2 - e1 from by omega,
    List.drop_eq_nil_of_le
      (show (List.take s1 t).length ≤ e2 - (e1 - s1) + c1.length from by rw [hlen]; omega),
    List.drop_eq_nil_of_le
      (show c1.length ≤ e2 - (e1 - s1) + c1.length - s1 from by omega),
    show e2 - (e1 - s1) + c1.length - (s1 + c1.length) = e2 - e1 from by omega,
    List.drop_drop, show e1 + (e2 - e1) = e2 from by omega]
  simp [List.append_assoc]

theorem shiftAfter_eq_self_of_before {x r : Replacement}
    (hx : x.start ≤ x.stop) (hr : r.start ≤ r.stop)
    (hbefore : r.stop ≤ x.start) (hne : r.start ≠ x.start) :
    shiftAfter x r = r := by
  unfold shiftAfter
  rw [if_neg (by omega)]

theorem applyOne_comm (t : List Char) (x y : Replacement)
    (hx : WfIn t x) (hy : WfIn t y) (hsep : Separated x y) :
    applyOne (applyOne t x) (shiftAfter x y) = applyOne (applyOne t y) (shiftAfter y x) := by
  obtain ⟨xs, xe, xc⟩ := x
  obtain ⟨ys, ye, yc⟩ := y
  obtain ⟨hx1, hx2⟩ := hx
  obtain ⟨hy1, hy2⟩ := hy
  obtain ⟨hor, hne⟩ := hsep
  dsimp only at hx1 hx2 hy1 hy2 hne
  rcases hor with h | h
  · dsimp only at h
    rw [shiftAfter_eq_self_of_before (by dsimp only; omega : (⟨ys, ye, yc⟩ : Replacement).start ≤ _)
        (by dsimp only; omega) (by dsimp only; omega) (by dsimp only; omega)]
    rw [applyOne_shifted t xs xe ys ye xc yc (by omega) (by omega) (by omega) (by omega)]
    rw [applyOne_after_applyOne t xs xe ys ye xc yc (by omega) (by omega) (by omega) (by omega)]
  · dsimp only at h
    rw [shiftAfter_eq_self_of_before (by dsimp only; omega : (⟨xs, xe, xc⟩ : Replacement).start ≤ _)
        (by dsimp only; omega) (by dsimp only; omega) (by dsimp only; omega)]
    rw [applyOne_shifted t ys ye xs xe yc xc (by omega) (by omega) (by omega) (by omega)]
    rw [applyOne_after_applyOne t ys ye xs xe yc xc (by omega) (by omega) (by omega) (by omega)]

theorem wfIn_shiftAfter (t : List Char) (x r : Replacement)
    (hx : WfIn t x) (hr : WfIn t r) (hsep : Separated x r) :
    WfIn (applyOne t x) (shiftAfter x r) := by
  have hlen := length_applyOne t x hx
  obtain ⟨hx1, hx2⟩ := hx
  obtain ⟨hr1, hr2⟩ := hr
  obtain ⟨hor, hne⟩ := hsep
  unfold shiftAfter WfIn
  split
  · next h => constructor <;> (dsimp only; omega)
  · next h =>
    have hbefore : r.stop ≤ x.start := by
      rcases hor with h2 | h2
      · omega
      · exact h2
    constructor
    · exact hr1
    · omega

theorem separated_shiftAfter (x r r' : Replacement)
    (hx : x.start ≤ x.stop) (hr : r.start ≤ r.stop) (hr' : r'.start ≤ r'.stop)
    (hsxr : Separated x r) (hsxr' : Separated x r') (hs : Separated r r') :
    Separated (shiftAfter x r) (shiftAfter x r') := by
  obtain ⟨xs, xe, xc⟩ := x
  obtain ⟨rs, re, rc⟩ := r
  obtain ⟨qs, qe, qc⟩ := r'
  unfold Separated at *
  unfold shiftAfter
  dsimp only at *
  split_ifs <;> (try dsimp only at *) <;> (constructor <;> dsimp only <;> omega)

theorem shiftAfter_swap (x y r : Replacement)
    (hx : x.start ≤ x.stop) (hy : y.start ≤ y.stop) (hr : r.start ≤ r.stop)
    (hsxy : Separated x y) (hsxr : Separated x r) (hsyr : Separated y r) :
    shiftAfter (shiftAfter x y) (shiftAfter x r)
      = shiftAfter (shiftAfter y x) (shiftAfter y r) := by
  obtain ⟨xs, xe, xc⟩ := x
  obtain ⟨ys, ye, yc⟩ := y
  obtain ⟨rs, re, rc⟩ := r
  unfold Separated at *
  unfold shiftAfter
  dsimp only at *
  split_ifs <;> (try dsimp only at *) <;>
    first
    | rfl
    | (simp only [Replacement.mk.injEq, and_true]; exact ⟨by omega, by omega⟩)
    | (exfalso; omega)


theorem insertDesc_perm (r : Replacement) (l : List Replacement) :
    List.Perm (insertDesc r l) (r :: l) := by
  induction l with
  | nil => exact List.Perm.refl _
  | cons x xs ih =>
    unfold insertDesc
    split
    · exact ((ih.cons x).trans (List.Perm.swap r x xs))
    · exact List.Perm.refl _

theorem sortDesc_perm (l : List Replacement) : List.Perm (sortDesc l) l := by
  induction l with
  | nil => exact List.Perm.refl _
  | cons x xs ih =>
    unfold sortDesc
    exact (insertDesc_perm x (sortDesc xs)).trans (ih.cons x)

theorem insertDesc_sorted (r : Replacement) (l : List Replacement)
    (h : l.Pairwise (fun a b => b.start ≤ a.start)) :
    (insertDesc r l).Pairwise (fun a b => b.start ≤ a.start) := by
  induction l with
  | nil => exact List.pairwise_singleton _ _
  | cons x xs ih =>
    have hx := List.pairwise_cons.mp h
    unfold insertDesc
    split
    · next hlt =>
      apply List.pairwise_cons.mpr
      constructor
      · intro a ha
        rcases List.mem_cons.mp ((insertDesc_perm r xs).mem_iff.mp ha) with h1 | h1
        · subst h1; omega
        · exact hx.1 a h1
      · exact ih hx.2
    · next hge =>
      apply List.pairwise_cons.mpr
      constructor
      · intro a ha
        rcases List.mem_cons.mp ha with h1 | h1
        · subst h1; omega
        · have := hx.1 a h1
          omega
      · exact h

theorem sortDesc_sorted (l : List Replacement) :
    (sortDesc l).Pairwise (fun a b => b.start ≤ a.start) := by
  induction l with
  | nil => exact List.Pairwise.nil
  | cons x xs ih => exact insertDesc_sorted x (sortDesc xs) ih

/-- In descending-start order with separated ranges, the pass-by-pass offset
re-resolution is the identity, so the sequential splice coincides with the
one-pass descending splice. -/
theorem applySeq_eq_foldl_of_sorted (t : List Char) (l : List Replacement)
    (hwf : ∀ r ∈ l, r.start ≤ r.stop)
    (hsorted : l.Pairwise (fun a b => b.start ≤ a.start))
    (hsep : l.Pairwise Separated) :
    applySeq t l = l.foldl applyOne t := by
  induction l generalizing t with
  | nil => rfl
  | cons r rs ih =>
    rw [applySeq_cons]
    have hmap : rs.map (shiftAfter r) = rs := by
      apply List.map_congr_left (g := id) ?_ |>.trans (List.map_id rs)
      intro r' hr'
      show shiftAfter r r' = r'
      unfold shiftAfter
      rw [if_neg]
      have hle := (List.pairwise_cons.mp hsorted).1 r' hr'
      have hs := (List.pairwise_cons.mp hsep).1 r' hr'
      have hwr := hwf r (List.mem_cons_self r rs)
      obtain ⟨hor, hne⟩ := hs
      omega
    rw [hmap, List.foldl_cons]
    exact ih _ (fun x hx => hwf x (List.mem_cons_of_mem _ hx))
      (List.pairwise_cons.mp hsorted).2 (List.pairwise_cons.mp hsep).2

instance (t : List Char) (r : Replacement) : Decidable (WfIn t r) :=
  inferInstanceAs (Decidable (r.start ≤ r.stop ∧ r.stop ≤ t.length))

instance (r r' : Replacement) : Decidable (Separated r r') :=
  inferInstanceAs (Decidable ((r.stop ≤ r'.start ∨ r'.stop ≤ r.start) ∧ r.start ≠ r'.start))

theorem wfIn_applyOne_of_before (t : List Char) (x y : Replacement)
    (hx : WfIn t x) (hy : WfIn t y) (hbefore : y.stop ≤ x.start) :
    WfIn (applyOne t x) y := by
  have hlen := length_applyOne t x hx
  exact ⟨hy.1, by omega⟩

theorem shiftAfter_start_lt_iff (r a b : Replacement)
    (hr : r.start ≤ r.stop) (ha : a.start ≤ a.stop) (hb : b.start ≤ b.stop)
    (hsa : Separated r a) (hsb : Separated r b) :
    ((shiftAfter r a).start < (shiftAfter r b).start ↔ a.start < b.start) := by
  obtain ⟨rs, re, rc⟩ := r
  obtain ⟨sa, ea, ca⟩ := a
  obtain ⟨sb, eb, cb⟩ := b
  unfold Separated at *
  unfold shiftAfter
  dsimp only at *
  split_ifs <;> dsimp only <;> omega

theorem insertDesc_map_shift (r x : Replacement) (L : List Replacement)
    (hord : ∀ b ∈ L, ((shiftAfter r x).start < (shiftAfter r b).start ↔ x.start < b.start)) :
    insertDesc (shiftAfter r x) (L.map (shiftAfter r)) = (insertDesc x L).map (shiftAfter r) := by
  induction L with
  | nil => rfl
  | cons y ys ih =>
    have h := hord y (List.mem_cons_self y ys)
    rw [List.map_cons]
    unfold insertDesc
    by_cases hc : x.start < y.start
    · rw [if_pos (h.mpr hc), if_pos hc, List.map_cons,
        ih (fun b hb => hord b (List.mem_cons_of_mem _ hb))]
    · rw [if_neg (fun hcontra => hc (h.mp hcontra)), if_neg hc, List.map_cons, List.map_cons]

theorem sortDesc_map_shift (r : Replacement) (l : List Replacement)
    (hord : ∀ a ∈ l, ∀ b ∈ l,
      ((shiftAfter r a).start < (shiftAfter r b).start ↔ a.start < b.start)) :
    sortDesc (l.map (shiftAfter r)) = (sortDesc l).map (shiftAfter r) := by
  induction l with
  | nil => rfl
  | cons x xs ih =>
    rw [List.map_cons]
    unfold sortDesc
    rw [ih (fun a ha b hb =>
      hord a (List.mem_cons_of_mem _ ha) b (List.mem_cons_of_mem _ hb))]
    exact insertDesc_map_shift r x (sortDesc xs)
      (fun b hb => hord x (List.mem_cons_self x xs) b
        (List.mem_cons_of_mem _ ((sortDesc_perm xs).mem_iff.mp hb)))

theorem foldl_insertDesc (t : List Char) (r : Replacement) (L : List Replacement)
    (hwfr : WfIn t r) (hwfL : ∀ x ∈ L, WfIn t x)
    (hsorted : L.Pairwise (fun a b => b.start ≤ a.start))
    (hsepL : L.Pairwise Separated)
    (hsepr : ∀ x ∈ L, Separated r x) :
    (L.map (shiftAfter r)).foldl applyOne (applyOne t r)
      = (insertDesc r L).foldl applyOne t := by
  induction L generalizing t with
  | nil => rfl
  | cons x xs ih =>
    have hsx : Separated r x := hsepr x (List.mem_cons_self x xs)
    have hwx : WfIn t x := hwfL x (List.mem_cons_self x xs)
    have hsorted' := List.pairwise_cons.mp hsorted
    have hsepL' := List.pairwise_cons.mp hsepL
    unfold insertDesc
    by_cases hc : r.start < x.start
    · have hrx : r.stop ≤ x.start := by
        rcases hsx.1 with h | h
        · exact h
        · exfalso
          have := hwx.1
          omega
      rw [List.map_cons, List.foldl_cons, applyOne_comm t r x hwfr hwx hsx,
        show shiftAfter x r = r from by unfold shiftAfter; rw [if_neg (by have := hwx.1; omega)],
        if_pos hc, List.foldl_cons]
      have hbefore : ∀ y ∈ xs, y.stop ≤ x.start := by
        intro y hy
        have hle := hsorted'.1 y hy
        have hsxy := hsepL'.1 y hy
        have hwy := hwfL y (List.mem_cons_of_mem _ hy)
        rcases hsxy.1 with h | h
        · exfalso
          have h1 := hwx.1
          have h2 := hwy.1
          have h3 := hsxy.2
          omega
        · exact h
      exact ih _
        (wfIn_applyOne_of_before t x r hwx hwfr hrx)
        (fun y hy => wfIn_applyOne_of_before t x y hwx
          (hwfL y (List.mem_cons_of_mem _ hy)) (hbefore y hy))
        hsorted'.2 hsepL'.2
        (fun y hy => hsepr y (List.mem_cons_of_mem _ hy))
    · have hxlt : x.start < r.start := by
        have := hsx.2
        omega
      have hmap : (x :: xs).map (shiftAfter r) = x :: xs := by
        apply (List.map_congr_left (g := id) ?_).trans (List.map_id _)
        intro y hy
        show shiftAfter r y = y
        unfold shiftAfter
        rw [if_neg]
        have hwr := hwfr.1
        rcases List.mem_cons.mp hy with h | h
        · subst h; omega
        · have := hsorted'.1 y h
          omega
      rw [hmap, if_neg hc]
      rfl

theorem applySeq_eq_spliceAll_aux (n : Nat) :
    ∀ (l : List Replacement) (t : List Char), l.length ≤ n →
      (∀ r ∈ l, WfIn t r) → l.Pairwise Separated →
      applySeq t l = spliceAll t l := by
  induction n with
  | zero =>
    intro l t hlen _ _
    have hnil : l = [] := List.length_eq_zero.mp (Nat.le_zero.mp hlen)
    subst hnil
    rfl
  | succ n ih =>
    intro l t hlen hwf hsep
    cases l with
    | nil => rfl
    | cons r rs =>
      have hsep' := List.pairwise_cons.mp hsep
      have hwfr : WfIn t r := hwf r (List.mem_cons_self r rs)
      rw [applySeq_cons]
      rw [ih (rs.map (shiftAfter r)) (applyOne t r)
        (by rw [List.length_map]; simpa using Nat.le_of_succ_le_succ hlen)
        (by
          intro y hy
          obtain ⟨y0, hy0, rfl⟩ := List.mem_map.mp hy
          exact wfIn_shiftAfter t r y0 hwfr (hwf y0 (List.mem_cons_of_mem _ hy0))
            (hsep'.1 y0 hy0))
        (by
          apply List.pairwise_map.mpr
          apply hsep'.2.imp_of_mem
          intro a b ha hb hab
          exact separated_shiftAfter r a b hwfr.1
            (hwf a (List.mem_cons_of_mem _ ha)).1 (hwf b (List.mem_cons_of_mem _ hb)).1
            (hsep'.1 a ha) (hsep'.1 b hb) hab)]
      unfold spliceAll
      rw [sortDesc_map_shift r rs
        (fun a ha b hb => shiftAfter_start_lt_iff r a b hwfr.1
          (hwf a (List.mem_cons_of_mem _ ha)).1 (hwf b (List.mem_cons_of_mem _ hb)).1
          (hsep'.1 a ha) (hsep'.1 b hb))]
      rw [show sortDesc (r :: rs) = insertDesc r (sortDesc rs) from rfl]
      exact foldl_insertDesc t r (sortDesc rs) hwfr
        (fun y hy => hwf y (List.mem_cons_of_mem _ ((sortDesc_perm rs).mem_iff.mp hy)))
        (sortDesc_sorted rs)
        (hsep'.2.perm (sortDesc_perm rs).symm (fun h => h.symm2))
        (fun y hy => hsep'.1 y ((sortDesc_perm rs).mem_iff.mp hy))

theorem applySeq_eq_spliceAll (t : List Char) (l : List Replacement)
    (hwf : ∀ r ∈ l, WfIn t r) (hsep : l.Pairwise Separated) :
    applySeq t l = spliceAll t l :=
  applySeq_eq_spliceAll_aux l.length l t Nat.le.refl hwf hsep

theorem sortDesc_eq_of_perm (l₁ l₂ : List Replacement)
    (hperm : List.Perm l₁ l₂) (hsep₁ : l₁.Pairwise Separated) :
    sortDesc l₁ = sortDesc l₂ := by
  have hp : List.Perm (sortDesc l₁) (sortDesc l₂) :=
    (sortDesc_perm l₁).trans (hperm.trans (sortDesc_perm l₂).symm)
  have hsep₂ : l₂.Pairwise Separated := hsep₁.perm hperm (fun h => h.symm2)
  have hs₁ : (sortDesc l₁).Pairwise Separated :=
    hsep₁.perm (sortDesc_perm l₁).symm (fun h => h.symm2)
  have hs₂ : (sortDesc l₂).Pairwise Separated :=
    hsep₂.perm (sortDesc_perm l₂).symm (fun h => h.symm2)
  have strict : ∀ (l : List Replacement),
      l.Pairwise (fun a b => b.start ≤ a.start) → l.Pairwise Separated →
      l.Pairwise (fun a b : Replacement => b.start < a.start ∨ a = b) := by
    intro l h1 h2
    exact (h1.and h2).imp (fun hab => Or.inl (by
      obtain ⟨hle, hsep⟩ := hab
      have := hsep.2
      omega))
  haveI : IsAntisymm Replacement (fun a b : Replacement => b.start < a.start ∨ a = b) := by
    constructor
    intro a b h1 h2
    rcases h1 with h1 | h1
    · rcases h2 with h2 | h2
      · omega
      · exact h2.symm
    · exact h1
  exact List.eq_of_perm_of_sorted hp
    (strict _ (sortDesc_sorted l₁) hs₁) (strict _ (sortDesc_sorted l₂) hs₂)

def c7r1 : Replacement := ⟨1, 1, ['X']⟩

def c7r2 : Replacement := ⟨1, 1, ['Y']⟩

/-- C7 is false as stated: two insertions (empty half-open ranges) at the
same offset are non-overlapping as position sets, yet applying them in
separate passes in the two possible orders yields different texts, so no
single one-pass order can agree with "any order". -/
theorem replacement_order_counterexample :
    RangesDisjoint c7r1 c7r2 ∧
    applySeq "ab".data [c7r1, c7r2] = "aXYb".data ∧
    applySeq "ab".data [c7r2, c7r1] = "aYXb".data ∧
    applySeq "ab".data [c7r1, c7r2] ≠ applySeq "ab".data [c7r2, c7r1] := by
  refine ⟨?_, by decide, by decide, by decide⟩
  intro i h
  have h1 : 1 ≤ i ∧ i < 1 := by simpa [c7r1] using h.1
  omega

/-- C7 amended: for replacements whose ranges lie in the text, are pairwise
separated as intervals, and have pairwise distinct start offsets, the
patcher's one-pass descending-start splice equals applying the replacements
one file-write per pass in any order. -/
theorem replacement_order_amended (t : List Char) (reps l : List Replacement)
    (hwf : ∀ r ∈ reps, WfIn t r) (hsep : reps.Pairwise Separated)
    (hperm : List.Perm reps l) :
    spliceAll t reps = applySeq t l := by
  have hsepl : l.Pairwise Separated := hsep.perm hperm (fun h => h.symm2)
  have hwfl : ∀ r ∈ l, WfIn t r := fun r hr => hwf r (hperm.mem_iff.mpr hr)
  rw [applySeq_eq_spliceAll t l hwfl hsepl]
  unfold spliceAll
  rw [sortDesc_eq_of_perm reps l hperm hsep]

def c7wr1 : Replacement := ⟨1, 2, "XY".data⟩

def c7wr2 : Replacement := ⟨4, 5, "Z".data⟩

/-- Witness for the amended C7: two separated add-attribute-style edits,
one-pass descending order against the reversed pass-by-pass order. -/
theorem replacement_order_amended_witness :
    spliceAll "abcdef".data [c7wr1, c7wr2] = applySeq "abcdef".data [c7wr2, c7wr1] :=
  replacement_order_amended "abcdef".data [c7wr1, c7wr2] [c7wr2, c7wr1]
    (by decide) (by decide) (by decide)

/-! ## Fix instructions and the offset-based (HTML) patch strategy -/

/-- Fix kinds (src/types/index.ts `Fix.fixType`). -/
inductive FixType
  | addAttribute
  | replaceAttribute
  | addElement
  | convertTag
  deriving DecidableEq

/-- Resolved source location carried by a fix (`metadata.sourceLocation`);
the `source` path is not needed by the patch strategies modelled here. -/
structure SourceLoc where
  line : Nat
  column : Nat
  closingLocation : Option (Nat × Nat)
  deriving DecidableEq

/-- Fix payload.  The optional TS fields are consumed under non-null
assertions (`payload.attribute!` etc.), so they are modelled as plain
strings; `attribute` is a Lean keyword, renamed `attr`. -/
structure FixPayload where
  attr : String
  value : String
  tagName : String
  attributes : List (String × String)
  deriving DecidableEq

/-- An edit instruction (src/types/index.ts `Fix`; the name `Fix` is taken
by Mathlib). -/
structure FixInstr where
  fixType : FixType
  selector : String
  payload : FixPayload
  loc : Option SourceLoc
  deriving DecidableEq

/-- Byte span reported by the HTML parser (`startOffset`/`endOffset`). -/
structure Span where
  startOffset : Nat
  endOffset : Nat
  deriving DecidableEq

/-- Source location data the HTML parser reports for one element: the start
tag span, the optional end tag span, and the spans of existing attributes
keyed by lowercased attribute name (`el.sourceCodeLocation`). -/
structure TagLoc where
  startTag : Span
  endTag : Option Span
  attrs : List (String × Span)
  deriving DecidableEq

/-- Lookup in the parser's attribute-span record. -/
def lookupSpan (attrs : List (String × Span)) (key : String) : Option Span :=
  (attrs.find? (fun kv => kv.1 == key)).map (fun kv => kv.2)

/-- JS `s.substring(a, b)`: clamps both indices and swaps them if needed. -/
def jsSubstring (t : List Char) (a b : Nat) : List Char :=
  (t.take (max a b)).drop (min a b)

/-- Characters matched by the tag-name pattern `[a-zA-Z0-9-]`. -/
def isTagChar (c : Char) : Bool := c.isAlpha || c.isDigit || c == '-'

/-- The text spliced in for an attribute: `name="value"`. -/
def attrText (name value : String) : List Char :=
  name.data ++ '=' :: '"' :: (value.data ++ ['"'])

namespace TargetedPatcher

/-- Replacements generated for one fix at a resolved element location (the
loop body of `TargetedPatcher.applyFixes`). -/
def fixReplacements (html : List Char) (fix : FixInstr) (loc : TagLoc) : List Replacement :=
  match fix.fixType with
  | FixType.addAttribute =>
    let attrName := fix.payload.attr
    let attrValue := fix.payload.value
    match lookupSpan loc.attrs (String.mk (lowerChars attrName.data)) with
    | some sp => [⟨sp.startOffset, sp.endOffset, attrText attrName attrValue⟩]
    | none =>
      if loc.startTag.endOffset = 0 then []
      else
        let insertPos := loc.startTag.endOffset - 1
        if html.get? insertPos = some '>' then
          let insertPos2 :=
            if 1 ≤ insertPos ∧ html.get? (insertPos - 1) = some '/' then insertPos - 1
            else insertPos
          [⟨insertPos2, insertPos2, ' ' :: attrText attrName attrValue⟩]
        else []
  | FixType.convertTag =>
    let newTagName := fix.payload.tagName
    let tagContent := jsSubstring html (loc.startTag.startOffset + 1) loc.startTag.endOffset
    let nameChars := tagContent.takeWhile isTagChar
    let opening : List Replacement :=
      if nameChars = [] then []
      else [⟨loc.startTag.startOffset + 1,
             loc.startTag.startOffset + 1 + nameChars.length, newTagName.data⟩]
    let closing : List Replacement :=
      match loc.endTag with
      | none => []
      | some sp =>
        let endContent := jsSubstring html (sp.startOffset + 2) sp.endOffset
        let endName := endContent.takeWhile isTagChar
        if endName = [] then []
        else [⟨sp.startOffset + 2, sp.startOffset + 2 + endName.length, newTagName.data⟩]
    opening ++ closing
  | _ => []

/-- `TargetedPatcher.applyFixes`, parameterized over `resolve`: the
selector query against the parsed document (cheerio is an external
collaborator; `none` models a missing element or missing location info).
Collect the replacements of every resolvable fix, sort them by descending
start offset, and splice sequentially. -/
def applyFixes (html : List Char) (fixes : List FixInstr) (resolve : FixInstr → Option TagLoc) :
    List Char :=
  let reps := fixes.foldl (fun acc fix =>
    match resolve fix with
    | none => acc
    | some loc => acc ++ fixReplacements html fix loc) []
  spliceAll html reps

end TargetedPatcher

theorem spliceAll_singleton (t : List Char) (r : Replacement) :
    spliceAll t [r] = applyOne t r := rfl

theorem take_extract_drop (t : List Char) (s e : Nat) (h1 : s ≤ e) (h2 : e ≤ t.length) :
    t.take s ++ ((t.take e).drop s ++ t.drop e) = t := by
  have hts : (t.take e).take s = t.take s := by
    rw [List.take_take]
    congr 1
    omega
  calc t.take s ++ ((t.take e).drop s ++ t.drop e)
      = ((t.take e).take s ++ (t.take e).drop s) ++ t.drop e := by
        rw [hts, List.append_assoc]
    _ = t.take e ++ t.drop e := by rw [List.take_append_drop]
    _ = t := List.take_append_drop e t

theorem applyFixes_single (html : List Char) (fix : FixInstr)
    (resolve : FixInstr → Option TagLoc) (loc : TagLoc) (hres : resolve fix = some loc) :
    TargetedPatcher.applyFixes html [fix] resolve
      = spliceAll html (TargetedPatcher.fixReplacements html fix loc) := by
  unfold TargetedPatcher.applyFixes
  simp only [List.foldl_cons, List.foldl_nil, hres, List.nil_append]

theorem fixReplacements_existing (html : List Char) (fix : FixInstr) (loc : TagLoc) (sp : Span)
    (hft : fix.fixType = FixType.addAttribute)
    (hsp : lookupSpan loc.attrs (String.mk (lowerChars fix.payload.attr.data)) = some sp) :
    TargetedPatcher.fixReplacements html fix loc
      = [⟨sp.startOffset, sp.endOffset, attrText fix.payload.attr fix.payload.value⟩] := by
  unfold TargetedPatcher.fixReplacements
  rw [hft]
  simp only [hsp]

theorem fixReplacements_insert (html : List Char) (fix : FixInstr) (loc : TagLoc)
    (hft : fix.fixType = FixType.addAttribute)
    (hsp : lookupSpan loc.attrs (String.mk (lowerChars fix.payload.attr.data)) = none)
    (heo : loc.startTag.endOffset ≠ 0)
    (hgt : html.get? (loc.startTag.endOffset - 1) = some '>') :
    TargetedPatcher.fixReplacements html fix loc
      = (let insertPos :=
          if 1 ≤ loc.startTag.endOffset - 1 ∧ html.get? (loc.startTag.endOffset - 2) = some '/'
          then loc.startTag.endOffset - 2 else loc.startTag.endOffset - 1
         [⟨insertPos, insertPos, ' ' :: attrText fix.payload.attr fix.payload.value⟩]) := by
  unfold TargetedPatcher.fixReplacements
  rw [hft]
  simp only [hsp, if_neg heo, hgt, eq_self_iff_true, if_true]
  by_cases hc : 1 ≤ loc.startTag.endOffset - 1 ∧ html.get? (loc.startTag.endOffset - 1 - 1) = some '/'
  · rw [if_pos hc, if_pos (by simpa [Nat.sub_sub] using hc), Nat.sub_sub]
  · rw [if_neg hc, if_neg (by simpa [Nat.sub_sub] using hc)]

def c5ceLoc : TagLoc := ⟨⟨0, 11⟩, none, [("alt", ⟨5, 10⟩)]⟩

def c5ceFix : FixInstr := ⟨FixType.addAttribute, "img", ⟨"alt", "y", "", []⟩, none⟩

/-- C5 is false as stated: on `<img ALT=x>` the existing attribute case
replaces the whole attribute span (name and value) with `alt="y"`, not
exactly the value span: the original name spelling `ALT` (bytes 5..8,
before the value span at byte 9) is rewritten, so the result cannot be the
original text with only the value span replaced, whatever the new value. -/
theorem html_add_attribute_counterexample :
    TargetedPatcher.applyFixes "<img ALT=x>".data [c5ceFix] (fun _ => some c5ceLoc)
        = "<img alt=\"y\">".data ∧
    ∀ v : List Char,
      TargetedPatcher.applyFixes "<img ALT=x>".data [c5ceFix] (fun _ => some c5ceLoc)
        ≠ ("<img ALT=x>".data).take 9 ++ v ++ ("<img ALT=x>".data).drop 10 := by
  refine ⟨by decide, ?_⟩
  intro v h
  have hres : (TargetedPatcher.applyFixes "<img ALT=x>".data [c5ceFix]
      (fun _ => some c5ceLoc)).get? 5 = some 'a' := by decide
  rw [h] at hres
  rw [List.get?_append (by
    rw [List.length_append]
    have h9 : (("<img ALT=x>".data).take 9).length = 9 := by decide
    omega)] at hres
  rw [List.get?_append (by decide)] at hres
  revert hres
  decide

/-- C5 amended: for the offset-based HTML strategy and an add-attribute fix
resolving to an element: if the parser reports the attribute as already
present with span `sp`, the entire attribute span (name and value) is
replaced with `name="value"` built from the fix's name and new value;
otherwise ` name="value"` is inserted immediately before the start tag's
closing `>`, or before the `/` of a trailing `/>`; the scenario
`<img src="a.png">` with add-attribute alt = "A chart of sales" yields
exactly `<img src="a.png" alt="A chart of sales">`. -/
theorem html_add_attribute_amended :
    (∀ (html : List Char) (fix : FixInstr) (resolve : FixInstr → Option TagLoc)
       (loc : TagLoc) (sp : Span),
      fix.fixType = FixType.addAttribute →
      resolve fix = some loc →
      lookupSpan loc.attrs (String.mk (lowerChars fix.payload.attr.data)) = some sp →
      TargetedPatcher.applyFixes html [fix] resolve
        = html.take sp.startOffset ++ attrText fix.payload.attr fix.payload.value
            ++ html.drop sp.endOffset) ∧
    (∀ (html : List Char) (fix : FixInstr) (resolve : FixInstr → Option TagLoc)
       (loc : TagLoc),
      fix.fixType = FixType.addAttribute →
      resolve fix = some loc →
      lookupSpan loc.attrs (String.mk (lowerChars fix.payload.attr.data)) = none →
      loc.startTag.endOffset ≠ 0 →
      html.get? (loc.startTag.endOffset - 1) = some '>' →
      ¬(1 ≤ loc.startTag.endOffset - 1 ∧
          html.get? (loc.startTag.endOffset - 2) = some '/') →
      TargetedPatcher.applyFixes html [fix] resolve
        = html.take (loc.startTag.endOffset - 1)
            ++ (' ' :: attrText fix.payload.attr fix.payload.value)
            ++ html.drop (loc.startTag.endOffset - 1)) ∧
    (∀ (html : List Char) (fix : FixInstr) (resolve : FixInstr → Option TagLoc)
       (loc : TagLoc),
      fix.fixType = FixType.addAttribute →
      resolve fix = some loc →
      lookupSpan loc.attrs (String.mk (lowerChars fix.payload.attr.data)) = none →
      loc.startTag.endOffset ≠ 0 →
      html.get? (loc.startTag.endOffset - 1) = some '>' →
      1 ≤ loc.startTag.endOffset - 1 →
      html.get? (loc.startTag.endOffset - 2) = some '/' →
      TargetedPatcher.applyFixes html [fix] resolve
        = html.take (loc.startTag.endOffset - 2)
            ++ (' ' :: attrText fix.payload.attr fix.payload.value)
            ++ html.drop (loc.startTag.endOffset - 2)) ∧
    TargetedPatcher.applyFixes "<img src=\"a.png\">".data
        [⟨FixType.addAttribute, "img", ⟨"alt", "A chart of sales", "", []⟩, none⟩]
        (fun _ => some ⟨⟨0, 17⟩, none, [("src", ⟨5, 16⟩)]⟩)
      = "<img src=\"a.png\" alt=\"A chart of sales\">".data := by
  refine ⟨?_, ?_, ?_, by decide⟩
  · intro html fix resolve loc sp hft hres hsp
    rw [applyFixes_single html fix resolve loc hres,
      fixReplacements_existing html fix loc sp hft hsp, spliceAll_singleton]
    rfl
  · intro html fix resolve loc hft hres hsp heo hgt hns
    rw [applyFixes_single html fix resolve loc hres,
      fixReplacements_insert html fix loc hft hsp heo hgt]
    dsimp only
    rw [if_neg hns, spliceAll_singleton]
    rfl
  · intro html fix resolve loc hft hres hsp heo hgt h1 h2
    rw [applyFixes_single html fix resolve loc hres,
      fixReplacements_insert html fix loc hft hsp heo hgt]
    dsimp only
    rw [if_pos ⟨h1, h2⟩, spliceAll_singleton]
    rfl

def c5wLoc : TagLoc := ⟨⟨0, 14⟩, none, [("role", ⟨5, 13⟩)]⟩

def c5wFix : FixInstr := ⟨FixType.addAttribute, "div", ⟨"role", "main", "", []⟩, none⟩

def c5wLoc2 : TagLoc := ⟨⟨0, 5⟩, none, []⟩

def c5wFix2 : FixInstr := ⟨FixType.addAttribute, "br", ⟨"aria-hidden", "true", "", []⟩, none⟩

/-- Witness for the amended C5: a replace-existing case, a self-closing
insert case, and the scenario instance. -/
theorem html_add_attribute_amended_witness :
    TargetedPatcher.applyFixes "<div role=\"x\">".data [c5wFix] (fun _ => some c5wLoc)
      = ("<div role=\"x\">".data).take 5 ++ attrText "role" "main"
          ++ ("<div role=\"x\">".data).drop 13 ∧
    TargetedPatcher.applyFixes "<br/> ".data [c5wFix2] (fun _ => some c5wLoc2)
      = ("<br/> ".data).take 3 ++ (' ' :: attrText "aria-hidden" "true")
          ++ ("<br/> ".data).drop 3 := by
  constructor
  · exact html_add_attribute_amended.1 "<div role=\"x\">".data c5wFix
      (fun _ => some c5wLoc) c5wLoc ⟨5, 13⟩ rfl rfl (by decide)
  · exact html_add_attribute_amended.2.2.1 "<br/> ".data c5wFix2
      (fun _ => some c5wLoc2) c5wLoc2 rfl rfl (by decide) (by decide) (by decide)
      (by decide) (by decide)

theorem sortDesc_pair_lt (r1 r2 : Replacement) (h : r1.start < r2.start) :
    sortDesc [r1, r2] = [r2, r1] := by
  show insertDesc r1 [r2] = [r2, r1]
  unfold insertDesc
  rw [if_pos h]
  rfl

theorem fixReplacements_convert_both (html : List Char) (fix : FixInstr)
    (loc : TagLoc) (sp : Span)
    (hft : fix.fixType = FixType.convertTag)
    (hend : loc.endTag = some sp)
    (hot : (jsSubstring html (loc.startTag.startOffset + 1)
        loc.startTag.endOffset).takeWhile isTagChar ≠ [])
    (hct : (jsSubstring html (sp.startOffset + 2) sp.endOffset).takeWhile isTagChar ≠ []) :
    TargetedPatcher.fixReplacements html fix loc
      = [⟨loc.startTag.startOffset + 1,
          loc.startTag.startOffset + 1 + ((jsSubstring html (loc.startTag.startOffset + 1)
            loc.startTag.endOffset).takeWhile isTagChar).length, fix.payload.tagName.data⟩,
         ⟨sp.startOffset + 2,
          sp.startOffset + 2 + ((jsSubstring html (sp.startOffset + 2)
            sp.endOffset).takeWhile isTagChar).length, fix.payload.tagName.data⟩] := by
  unfold TargetedPatcher.fixReplacements
  rw [hft]
  simp only [hend, if_neg hot, if_neg hct]
  rfl

theorem fixReplacements_convert_open (html : List Char) (fix : FixInstr) (loc : TagLoc)
    (hft : fix.fixType = FixType.convertTag)
    (hend : loc.endTag = none)
    (hot : (jsSubstring html (loc.startTag.startOffset + 1)
        loc.startTag.endOffset).takeWhile isTagChar ≠ []) :
    TargetedPatcher.fixReplacements html fix loc
      = [⟨loc.startTag.startOffset + 1,
          loc.startTag.startOffset + 1 + ((jsSubstring html (loc.startTag.startOffset + 1)
            loc.startTag.endOffset).takeWhile isTagChar).length, fix.payload.tagName.data⟩] := by
  unfold TargetedPatcher.fixReplacements
  rw [hft]
  simp only [hend, if_neg hot]
  rfl

/-- C6: for the offset-based HTML strategy and a convert-tag fix resolving
to an element, only the tag-name span immediately after `<` in the opening
tag is replaced with the new tag name and, when a closing tag exists, only
the tag-name span immediately after `</`; all attributes and surrounding
text are byte-for-byte unchanged (the output is built from untouched
segments of the original text), and the scenario
`<div role="button" onclick="go()">Go</div>` with convert-tag button yields
exactly `<button role="button" onclick="go()">Go</button>`. -/
theorem html_convert_tag_spans :
    (∀ (html : List Char) (fix : FixInstr) (resolve : FixInstr → Option TagLoc)
       (loc : TagLoc) (sp : Span),
      fix.fixType = FixType.convertTag →
      resolve fix = some loc →
      loc.endTag = some sp →
      ∀ (hot : (jsSubstring html (loc.startTag.startOffset + 1)
          loc.startTag.endOffset).takeWhile isTagChar ≠ [])
        (hct : (jsSubstring html (sp.startOffset + 2)
          sp.endOffset).takeWhile isTagChar ≠ []),
      loc.startTag.startOffset + 1 + ((jsSubstring html (loc.startTag.startOffset + 1)
          loc.startTag.endOffset).takeWhile isTagChar).length ≤ sp.startOffset + 2 →
      sp.startOffset + 2 + ((jsSubstring html (sp.startOffset + 2)
          sp.endOffset).takeWhile isTagChar).length ≤ html.length →
      TargetedPatcher.applyFixes html [fix] resolve
        = html.take (loc.startTag.startOffset + 1) ++ fix.payload.tagName.data
          ++ (html.drop (loc.startTag.startOffset + 1
                + ((jsSubstring html (loc.startTag.startOffset + 1)
                    loc.startTag.endOffset).takeWhile isTagChar).length)).take
              (sp.startOffset + 2 - (loc.startTag.startOffset + 1
                + ((jsSubstring html (loc.startTag.startOffset + 1)
                    loc.startTag.endOffset).takeWhile isTagChar).length))
          ++ fix.payload.tagName.data
          ++ html.drop (sp.startOffset + 2 + ((jsSubstring html (sp.startOffset + 2)
              sp.endOffset).takeWhile isTagChar).length)) ∧
    (∀ (html : List Char) (fix : FixInstr) (resolve : FixInstr → Option TagLoc)
       (loc : TagLoc),
      fix.fixType = FixType.convertTag →
      resolve fix = some loc →
      loc.endTag = none →
      (jsSubstring html (loc.startTag.startOffset + 1)
          loc.startTag.endOffset).takeWhile isTagChar ≠ [] →
      TargetedPatcher.applyFixes html [fix] resolve
        = html.take (loc.startTag.startOffset + 1) ++ fix.payload.tagName.data
          ++ html.drop (loc.startTag.startOffset + 1
              + ((jsSubstring html (loc.startTag.startOffset + 1)
                  loc.startTag.endOffset).takeWhile isTagChar).length)) ∧
    TargetedPatcher.applyFixes "<div role=\"button\" onclick=\"go()\">Go</div>".data
        [⟨FixType.convertTag, "div", ⟨"", "", "button", []⟩, none⟩]
        (fun _ => some ⟨⟨0, 34⟩, some ⟨36, 42⟩,
          [("role", ⟨5, 18⟩), ("onclick", ⟨19, 33⟩)]⟩)
      = "<button role=\"button\" onclick=\"go()\">Go</button>".data := by
  refine ⟨?_, ?_, by decide⟩
  · intro html fix resolve loc sp hft hres hend hot hct horder hlen
    rw [applyFixes_single html fix resolve loc hres,
      fixReplacements_convert_both html fix loc sp hft hend hot hct]
    set ol := ((jsSubstring html (loc.startTag.startOffset + 1)
      loc.startTag.endOffset).takeWhile isTagChar).length with hol
    set cl := ((jsSubstring html (sp.startOffset + 2)
      sp.endOffset).takeWhile isTagChar).length with hcl
    have holpos : 0 < ol := by
      rw [hol]
      exact List.length_pos.mpr hot
    have hsplice : spliceAll html
        [⟨loc.startTag.startOffset + 1, loc.startTag.startOffset + 1 + ol,
          fix.payload.tagName.data⟩,
         ⟨sp.startOffset + 2, sp.startOffset + 2 + cl, fix.payload.tagName.data⟩]
        = applyOne (applyOne html
            ⟨sp.startOffset + 2, sp.startOffset + 2 + cl, fix.payload.tagName.data⟩)
          ⟨loc.startTag.startOffset + 1, loc.startTag.startOffset + 1 + ol,
            fix.payload.tagName.data⟩ := by
      unfold spliceAll
      rw [sortDesc_pair_lt _ _ (by dsimp only; omega)]
      rfl
    rw [hsplice]
    exact applyOne_after_applyOne html (loc.startTag.startOffset + 1)
      (loc.startTag.startOffset + 1 + ol) (sp.startOffset + 2) (sp.startOffset + 2 + cl)
      fix.payload.tagName.data fix.payload.tagName.data
      (by omega) horder (by omega) hlen
  · intro html fix resolve loc hft hres hend hot
    rw [applyFixes_single html fix resolve loc hres,
      fixReplacements_convert_open html fix loc hft hend hot, spliceAll_singleton]
    rfl

/-- Witness for C6 at the scenario input, through the universal span
equation. -/
theorem html_convert_tag_spans_witness :
    TargetedPatcher.applyFixes "<div role=\"button\" onclick=\"go()\">Go</div>".data
        [⟨FixType.convertTag, "div", ⟨"", "", "button", []⟩, none⟩]
        (fun _ => some ⟨⟨0, 34⟩, some ⟨36, 42⟩,
          [("role", ⟨5, 18⟩), ("onclick", ⟨19, 33⟩)]⟩)
      = ("<div role=\"button\" onclick=\"go()\">Go</div>".data).take 1 ++ "button".data
        ++ (("<div role=\"button\" onclick=\"go()\">Go</div>".data).drop 4).take 34
        ++ "button".data
        ++ ("<div role=\"button\" onclick=\"go()\">Go</div>".data).drop 41 := by
  have h := html_convert_tag_spans.1 "<div role=\"button\" onclick=\"go()\">Go</div>".data
    ⟨FixType.convertTag, "div", ⟨"", "", "button", []⟩, none⟩
    (fun _ => some ⟨⟨0, 34⟩, some ⟨36, 42⟩, [("role", ⟨5, 18⟩), ("onclick", ⟨19, 33⟩)]⟩)
    ⟨⟨0, 34⟩, some ⟨36, 42⟩, [("role", ⟨5, 18⟩), ("onclick", ⟨19, 33⟩)]⟩ ⟨36, 42⟩
    rfl rfl rfl (by decide) (by decide) (by decide) (by decide)
  simpa using h

/-! ## Line/column-based (Vue) patch strategy -/

/-- JS `source.split('\n')`. -/
def splitNl : List Char → List (List Char)
  | [] => [[]]
  | c :: rest =>
    if c = '\n' then [] :: splitNl rest
    else
      match splitNl rest with
      | [] => [[c]]
      | h :: t => (c :: h) :: t

/-- JS `lines.join('\n')`. -/
def joinNl : List (List Char) → List Char
  | [] => []
  | [l] => l
  | l :: ls => l ++ '\n' :: joinNl ls

theorem splitNl_ne_nil (l : List Char) : splitNl l ≠ [] := by
  cases l with
  | nil => simp [splitNl]
  | cons c rest =>
    unfold splitNl
    split
    · simp
    · cases splitNl rest <;> simp

theorem joinNl_cons (l : List Char) (ls : List (List Char)) (h : ls ≠ []) :
    joinNl (l :: ls) = l ++ '\n' :: joinNl ls := by
  cases ls with
  | nil => exact absurd rfl h
  | cons x xs => rfl

theorem joinNl_splitNl (l : List Char) : joinNl (splitNl l) = l := by
  induction l with
  | nil => rfl
  | cons c rest ih =>
    unfold splitNl
    split
    · next hc =>
      rw [joinNl_cons _ _ (splitNl_ne_nil rest), ih, hc]
      rfl
    · next hc =>
      cases hsp : splitNl rest with
      | nil => exact absurd hsp (splitNl_ne_nil rest)
      | cons h t =>
        rw [hsp] at ih
        cases t with
        | nil =>
          show joinNl [c :: h] = c :: rest
          show c :: h = c :: rest
          rw [show h = rest from ih]
        | cons t0 ts =>
          rw [joinNl_cons _ _ (by simp)]
          rw [joinNl_cons _ _ (by simp)] at ih
          show (c :: h) ++ '\n' :: joinNl (t0 :: ts) = c :: rest
          rw [List.cons_append, ih]

theorem nlFree_mem_splitNl (l : List Char) :
    ∀ s ∈ splitNl l, ∀ c ∈ s, ¬(c = '\n') := by
  induction l with
  | nil =>
    intro s hs
    simp [splitNl] at hs
    subst hs
    simp
  | cons c rest ih =>
    intro s hs
    unfold splitNl at hs
    split at hs
    · rcases List.mem_cons.mp hs with h | h
      · subst h; simp
      · exact ih s h
    · next hc =>
      cases hsp : splitNl rest with
      | nil => exact absurd hsp (splitNl_ne_nil rest)
      | cons h t =>
        rw [hsp] at hs
        rcases List.mem_cons.mp hs with h1 | h1
        · subst h1
          intro x hx
          rcases List.mem_cons.mp hx with h2 | h2
          · subst h2; exact hc
          · exact ih h (by rw [hsp]; exact List.mem_cons_self h t) x h2
        · exact ih s (by rw [hsp]; exact List.mem_cons_of_mem _ h1)

theorem splitNl_get_zero (l : List Char) :
    (splitNl l).get? 0 = some (l.takeWhile (fun c => !(c == '\n'))) := by
  induction l with
  | nil => rfl
  | cons c rest ih =>
    unfold splitNl
    split
    · next hc =>
      subst hc
      simp [List.takeWhile]
    · next hc =>
      cases hsp : splitNl rest with
      | nil => exact absurd hsp (splitNl_ne_nil rest)
      | cons h t =>
        rw [hsp] at ih
        simp only [List.get?_cons_zero, Option.some.injEq] at ih
        simp only [List.get?_cons_zero, Option.some.injEq, List.takeWhile]
        rw [show (c == '\n') = false from by simpa using hc]
        simp only [Bool.not_false, cond]
        rw [ih]

theorem splitNl_append_nlfree (a b : List Char) (ha : ∀ c ∈ a, ¬(c = '\n')) :
    splitNl (a ++ '\n' :: b) = a :: splitNl b := by
  induction a with
  | nil =>
    show splitNl ('\n' :: b) = [] :: splitNl b
    conv_lhs => rw [splitNl]
    rw [if_pos rfl]
  | cons c a' ih =>
    have hc : ¬(c = '\n') := ha c (List.mem_cons_self c a')
    show splitNl (c :: (a' ++ '\n' :: b)) = (c :: a') :: splitNl b
    conv_lhs => rw [splitNl]
    rw [if_neg hc, ih (fun x hx => ha x (List.mem_cons_of_mem _ hx))]

theorem takeWhile_append_all (p : Char → Bool) (a b : List Char)
    (ha : ∀ c ∈ a, p c = true) :
    (a ++ b).takeWhile p = a ++ b.takeWhile p := by
  induction a with
  | nil => rfl
  | cons c a' ih =>
    simp only [List.cons_append, List.takeWhile_cons,
      ha c (List.mem_cons_self c a'), if_true,
      ih (fun x hx => ha x (List.mem_cons_of_mem _ hx))]

theorem takeWhile_append_stop (a r : List Char) :
    ((a ++ '\n' :: r).takeWhile (fun c => !(c == '\n')))
      = a.takeWhile (fun c => !(c == '\n')) := by
  induction a with
  | nil => simp [List.takeWhile_cons]
  | cons c a' ih =>
    simp only [List.cons_append, List.takeWhile_cons]
    cases hc : (c == '\n') with
    | true => simp
    | false => simp only [Bool.not_false, if_true, ih]

theorem splitNl_joinNl_get (pre post : List (List Char)) (L : List Char)
    (hpre : ∀ s ∈ pre, ∀ c ∈ s, ¬(c = '\n')) :
    (splitNl (joinNl (pre ++ L :: post))).get? pre.length
      = some (L.takeWhile (fun c => !(c == '\n'))) := by
  induction pre with
  | nil =>
    cases post with
    | nil => exact splitNl_get_zero L
    | cons p ps =>
      show (splitNl (joinNl (L :: p :: ps))).get? 0 = _
      rw [joinNl_cons _ _ (by simp), splitNl_get_zero, takeWhile_append_stop]
  | cons q pre' ih =>
    have hq : ∀ c ∈ q, ¬(c = '\n') := hpre q (List.mem_cons_self q pre')
    show (splitNl (joinNl (q :: (pre' ++ L :: post)))).get? (pre'.length + 1) = _
    rw [joinNl_cons _ _ (by simp), splitNl_append_nlfree q _ hq]
    show (splitNl (joinNl (pre' ++ L :: post))).get? pre'.length = _
    exact ih (fun s hs => hpre s (List.mem_cons_of_mem _ hs))

/-- JS `l.lastIndexOf(pat)`: greatest index at which `pat` starts inside
`l`, or `-1`. -/
def jsLastIndexOf (l pat : List Char) : Int :=
  match ((List.range (l.length + 1)).filter (fun i => pat.isPrefixOf (l.drop i))).getLast? with
  | some i => Int.ofNat i
  | none => -1

namespace VuePatcher

/-- Line sort key of a fix (`a.metadata?.sourceLocation?.line || 0`). -/
def fixLine (fix : FixInstr) : Nat :=
  match fix.loc with
  | some loc => loc.line
  | none => 0

/-- Stable insertion for the descending line sort of the fixes. -/
def insertFixDesc (f : FixInstr) : List FixInstr → List FixInstr
  | [] => [f]
  | x :: xs => if fixLine f < fixLine x then x :: insertFixDesc f xs else f :: x :: xs

/-- `fixes.sort((a, b) => lineB - lineA)`. -/
def sortFixesDesc : List FixInstr → List FixInstr
  | [] => []
  | x :: xs => insertFixDesc x (sortFixesDesc xs)

/-- Per-fix body of the `VuePatcher.applyFixes` loop on the line array.
`if (loc && loc.line)` makes line 0 falsy; bounds are checked before
indexing. -/
def applyFixToLines (lines : List (List Char)) (fix : FixInstr) : List (List Char) :=
  match fix.loc with
  | none => lines
  | some loc =>
    if loc.line = 0 then lines
    else
      let lineIndex := loc.line - 1
      if lineIndex < lines.length then
        let lineContent := lines.getD lineIndex []
        match fix.fixType with
        | FixType.addAttribute =>
          let attrName := fix.payload.attr
          let attrValue := fix.payload.value
          if jsIncludes lineContent (attrName.data ++ ['=']) = true then lines
          else
            let tagEnd := jsLastIndexOf lineContent ['>']
            let selfClosing := jsLastIndexOf lineContent ['/', '>']
            let lastLt := jsLastIndexOf lineContent ['<']
            let insertPos : Int :=
              if selfClosing ≠ -1 ∧ lastLt < selfClosing then selfClosing
              else if tagEnd ≠ -1 ∧ lastLt < tagEnd then tagEnd
              else -1
            if insertPos = -1 then lines
            else
              lines.set lineIndex (lineContent.take insertPos.toNat
                ++ (' ' :: attrText attrName attrValue)
                ++ lineContent.drop insertPos.toNat)
        | FixType.convertTag =>
          let newTagName := fix.payload.tagName
          let col := loc.column
          let lines1 :=
            if lineContent.get? col = some '<' then
              let nameLen := ((lineContent.drop (col + 1)).takeWhile isTagChar).length
              lines.set lineIndex (lineContent.take (col + 1) ++ newTagName.data
                ++ lineContent.drop (col + 1 + nameLen))
            else lines
          match loc.closingLocation with
          | none => lines1
          | some (cline, ccol) =>
            if 1 ≤ cline ∧ cline - 1 < lines1.length then
              let closingLineContent := lines1.getD (cline - 1) []
              if jsSubstring closingLineContent ccol (ccol + 2) = ['<', '/'] then
                let nameLen :=
                  ((closingLineContent.drop (ccol + 2)).takeWhile isTagChar).length
                lines1.set (cline - 1) (closingLineContent.take (ccol + 2)
                  ++ newTagName.data ++ closingLineContent.drop (ccol + 2 + nameLen))
              else lines1
            else lines1
        | _ => lines
      else lines

/-- src/core/patcher/vue.ts `VuePatcher.applyFixes` (the file read from
disk is the `source` argument): split into lines, apply the fixes sorted by
descending resolved line, join. -/
def applyFixes (source : List Char) (fixes : List FixInstr) : List Char :=
  joinNl ((sortFixesDesc fixes).foldl applyFixToLines (splitNl source))

end VuePatcher

theorem vue_applyFixes_single (source : List Char) (fix : FixInstr) :
    VuePatcher.applyFixes source [fix]
      = joinNl (VuePatcher.applyFixToLines (splitNl source) fix) := rfl

theorem applyFixToLines_addAttr_cases (lines : List (List Char)) (fix : FixInstr)
    (hft : fix.fixType = FixType.addAttribute) :
    VuePatcher.applyFixToLines lines fix = lines ∨
    ∃ (loc : SourceLoc) (p : Nat),
      fix.loc = some loc ∧ loc.line ≠ 0 ∧ loc.line - 1 < lines.length ∧
      jsIncludes (lines.getD (loc.line - 1) []) (fix.payload.attr.data ++ ['=']) = false ∧
      VuePatcher.applyFixToLines lines fix
        = lines.set (loc.line - 1)
            ((lines.getD (loc.line - 1) []).take p
              ++ (' ' :: attrText fix.payload.attr fix.payload.value)
              ++ (lines.getD (loc.line - 1) []).drop p) := by
  unfold VuePatcher.applyFixToLines
  cases hloc : fix.loc with
  | none => exact Or.inl rfl
  | some loc =>
    dsimp only
    by_cases h0 : loc.line = 0
    · rw [if_pos h0]
      exact Or.inl rfl
    · rw [if_neg h0]
      by_cases hb : loc.line - 1 < lines.length
      · rw [if_pos hb, hft]
        dsimp only
        by_cases hinc : jsIncludes (lines.getD (loc.line - 1) [])
            (fix.payload.attr.data ++ ['=']) = true
        · rw [if_pos hinc]
          exact Or.inl rfl
        · rw [if_neg hinc]
          by_cases hneg : (if jsLastIndexOf (lines.getD (loc.line - 1) []) ['/', '>'] ≠ -1 ∧
                jsLastIndexOf (lines.getD (loc.line - 1) []) ['<']
                  < jsLastIndexOf (lines.getD (loc.line - 1) []) ['/', '>'] then
              jsLastIndexOf (lines.getD (loc.line - 1) []) ['/', '>']
            else if jsLastIndexOf (lines.getD (loc.line - 1) []) ['>'] ≠ -1 ∧
                jsLastIndexOf (lines.getD (loc.line - 1) []) ['<']
                  < jsLastIndexOf (lines.getD (loc.line - 1) []) ['>'] then
              jsLastIndexOf (lines.getD (loc.line - 1) []) ['>']
            else -1) = -1
          · rw [if_pos hneg]
            exact Or.inl rfl
          · rw [if_neg hneg]
            right
            refine ⟨loc, _, rfl, h0, hb, by simpa using hinc, rfl⟩
      · rw [if_neg hb]
        exact Or.inl rfl

theorem vue_addAttr_idempotent (source : List Char) (fix : FixInstr)
    (hft : fix.fixType = FixType.addAttribute)
    (hnl : '\n' ∉ fix.payload.attr.data) :
    VuePatcher.applyFixes (VuePatcher.applyFixes source [fix]) [fix]
      = VuePatcher.applyFixes source [fix] := by
  rcases applyFixToLines_addAttr_cases (splitNl source) fix hft with
    hcase | ⟨loc, p, hloc, h0, hb, hinc, heq⟩
  · have h1 : VuePatcher.applyFixes source [fix] = source := by
      rw [vue_applyFixes_single, hcase, joinNl_splitNl]
    rw [h1, h1]
  · have hgetD : (splitNl source).getD (loc.line - 1) []
        = (splitNl source).get ⟨loc.line - 1, hb⟩ := by
      show ((splitNl source).get? (loc.line - 1)).getD [] = _
      rw [List.get?_eq_get hb]
      rfl
    have hlc_mem : (splitNl source).getD (loc.line - 1) [] ∈ splitNl source := by
      rw [hgetD]
      exact List.get_mem _ _ _
    have hlc_nl : ∀ c ∈ (splitNl source).getD (loc.line - 1) [], ¬(c = '\n') :=
      nlFree_mem_splitNl source _ hlc_mem
    have hdecomp : ((splitNl source).getD (loc.line - 1) []).take p
          ++ (' ' :: attrText fix.payload.attr fix.payload.value)
          ++ ((splitNl source).getD (loc.line - 1) []).drop p
        = (((splitNl source).getD (loc.line - 1) []).take p
            ++ ' ' :: fix.payload.attr.data ++ ['='])
          ++ ('"' :: (fix.payload.value.data ++ ['"'])
            ++ ((splitNl source).getD (loc.line - 1) []).drop p) := by
      simp [attrText, List.append_assoc]
    have htake : (((splitNl source).getD (loc.line - 1) []).take p
          ++ (' ' :: attrText fix.payload.attr fix.payload.value)
          ++ ((splitNl source).getD (loc.line - 1) []).drop p).takeWhile
            (fun c => !(c == '\n'))
        = (((splitNl source).getD (loc.line - 1) []).take p
            ++ ' ' :: fix.payload.attr.data ++ ['='])
          ++ (('"' :: (fix.payload.value.data ++ ['"'])
            ++ ((splitNl source).getD (loc.line - 1) []).drop p).takeWhile
              (fun c => !(c == '\n'))) := by
      rw [hdecomp]
      apply takeWhile_append_all
      intro c hc
      simp only [Bool.not_eq_true']
      rcases List.mem_append.mp hc with h | h
      · rcases List.mem_append.mp h with h1 | h1
        · exact beq_eq_false_iff_ne.mpr (hlc_nl c (List.mem_of_mem_take h1))
        · rcases List.mem_cons.mp h1 with h2 | h2
          · subst h2; decide
          · exact beq_eq_false_iff_ne.mpr (fun hcontra => hnl (hcontra ▸ h2))
      · rcases List.mem_singleton.mp h with h4
        subst h4; decide
    have hinfix : List.IsInfix (fix.payload.attr.data ++ ['='])
        ((((splitNl source).getD (loc.line - 1) []).take p
          ++ (' ' :: attrText fix.payload.attr fix.payload.value)
          ++ ((splitNl source).getD (loc.line - 1) []).drop p).takeWhile
            (fun c => !(c == '\n'))) := by
      rw [htake]
      refine ⟨((splitNl source).getD (loc.line - 1) []).take p ++ [' '],
        ('"' :: (fix.payload.value.data ++ ['"'])
          ++ ((splitNl source).getD (loc.line - 1) []).drop p).takeWhile
            (fun c => !(c == '\n')), ?_⟩
      simp [List.append_assoc]
    have hget : (splitNl (joinNl ((splitNl source).set (loc.line - 1)
          (((splitNl source).getD (loc.line - 1) []).take p
            ++ (' ' :: attrText fix.payload.attr fix.payload.value)
            ++ ((splitNl source).getD (loc.line - 1) []).drop p)))).get? (loc.line - 1)
        = some ((((splitNl source).getD (loc.line - 1) []).take p
            ++ (' ' :: attrText fix.payload.attr fix.payload.value)
            ++ ((splitNl source).getD (loc.line - 1) []).drop p).takeWhile
              (fun c => !(c == '\n'))) := by
      rw [List.set_eq_take_cons_drop _ hb]
      have hlen : ((splitNl source).take (loc.line - 1)).length = loc.line - 1 := by
        rw [List.length_take]
        omega
      have hmain := splitNl_joinNl_get ((splitNl source).take (loc.line - 1))
        ((splitNl source).drop (loc.line - 1 + 1))
        (((splitNl source).getD (loc.line - 1) []).take p
          ++ (' ' :: attrText fix.payload.attr fix.payload.value)
          ++ ((splitNl source).getD (loc.line - 1) []).drop p)
        (fun s hs => nlFree_mem_splitNl source s (List.mem_of_mem_take hs))
      rw [hlen] at hmain
      exact hmain
    have hnoop : VuePatcher.applyFixToLines
        (splitNl (joinNl ((splitNl source).set (loc.line - 1)
          (((splitNl source).getD (loc.line - 1) []).take p
            ++ (' ' :: attrText fix.payload.attr fix.payload.value)
            ++ ((splitNl source).getD (loc.line - 1) []).drop p)))) fix
        = splitNl (joinNl ((splitNl source).set (loc.line - 1)
          (((splitNl source).getD (loc.line - 1) []).take p
            ++ (' ' :: attrText fix.payload.attr fix.payload.value)
            ++ ((splitNl source).getD (loc.line - 1) []).drop p))) := by
      unfold VuePatcher.applyFixToLines
      rw [hloc]
      dsimp only
      rw [if_neg h0]
      by_cases hb2 : loc.line - 1 < (splitNl (joinNl ((splitNl source).set (loc.line - 1)
          (((splitNl source).getD (loc.line - 1) []).take p
            ++ (' ' :: attrText fix.payload.attr fix.payload.value)
            ++ ((splitNl source).getD (loc.line - 1) []).drop p)))).length
      · rw [if_pos hb2, hft]
        dsimp only
        have hlc2 : (splitNl (joinNl ((splitNl source).set (loc.line - 1)
              (((splitNl source).getD (loc.line - 1) []).take p
                ++ (' ' :: attrText fix.payload.attr fix.payload.value)
                ++ ((splitNl source).getD (loc.line - 1) []).drop p)))).getD (loc.line - 1) []
            = (((splitNl source).getD (loc.line - 1) []).take p
                ++ (' ' :: attrText fix.payload.attr fix.payload.value)
                ++ ((splitNl source).getD (loc.line - 1) []).drop p).takeWhile
                  (fun c => !(c == '\n')) := by
          show ((splitNl _).get? (loc.line - 1)).getD [] = _
          rw [hget]
          rfl
        rw [hlc2, if_pos (by
          simp only [jsIncludes, decide_eq_true_eq]
          exact hinfix)]
      · rw [if_neg hb2]
    have h1 : VuePatcher.applyFixes source [fix]
        = joinNl ((splitNl source).set (loc.line - 1)
          (((splitNl source).getD (loc.line - 1) []).take p
            ++ (' ' :: attrText fix.payload.attr fix.payload.value)
            ++ ((splitNl source).getD (loc.line - 1) []).drop p)) := by
      rw [vue_applyFixes_single, heq]
    rw [h1, vue_applyFixes_single, hnoop, joinNl_splitNl]

/-! ## AST-based (JSX/TSX) patch strategy -/

/-- A JSX attribute value as the patcher distinguishes them: a string
literal, or any other expression node (opaque id). -/
inductive JSXAttrVal
  | strLit (s : String)
  | other (k : Nat)
  deriving DecidableEq

/-- A JSX attribute node; `name` is absent for spread attributes. -/
structure JSXAttr where
  name : Option String
  value : JSXAttrVal
  deriving DecidableEq

/-- A JSX element as the patcher reads it: start line, opening tag name
(and whether it is a plain JSXIdentifier), attributes, and the optional
closing tag name with its identifier flag. -/
structure JSXElem where
  line : Nat
  openName : String
  openIsIdent : Bool
  attrs : List JSXAttr
  closing : Option (String × Bool)
  deriving DecidableEq

/-- Lookup of a JSX attribute by name (`attributes.find`). -/
def lookupJsxAttr (attrs : List JSXAttr) (k : String) : Option JSXAttrVal :=
  (attrs.find? (fun a => a.name == some k)).map (fun a => a.value)

namespace ReactPatcher

/-- The find-then-mutate-or-push step of `applyFixToNode`: update the first
attribute named `k` to the string literal `v`, else append a new one. -/
def setAttr : List JSXAttr → String → String → List JSXAttr
  | [], k, v => [⟨some k, JSXAttrVal.strLit v⟩]
  | a :: rest, k, v =>
    if a.name = some k then ⟨a.name, JSXAttrVal.strLit v⟩ :: rest
    else a :: setAttr rest k v

/-- src/core/patcher/react.ts `ReactPatcher.applyFixToNode`. -/
def applyFixToNode (el : JSXElem) (fix : FixInstr) : JSXElem :=
  match fix.fixType with
  | FixType.addAttribute =>
    { el with attrs := setAttr el.attrs fix.payload.attr fix.payload.value }
  | FixType.convertTag =>
    let el1 :=
      if el.openIsIdent then { el with openName := fix.payload.tagName } else el
    let el2 :=
      match el1.closing with
      | some (_, true) => { el1 with closing := some (fix.payload.tagName, true) }
      | _ => el1
    { el2 with attrs :=
        List.foldl (fun attrs kv => setAttr attrs kv.1 kv.2) el2.attrs fix.payload.attributes }
  | _ => el

/-- One fix of the `ReactPatcher.applyFixes` loop: every JSX element whose
start line equals the fix's resolved line is rewritten
(`root.findJSXElements().forEach`); `if (loc && loc.line)` makes line 0
falsy. -/
def applyFixAst (ast : List JSXElem) (fix : FixInstr) : List JSXElem :=
  match fix.loc with
  | none => ast
  | some loc =>
    if loc.line = 0 then ast
    else ast.map (fun el => if el.line = loc.line then applyFixToNode el fix else el)

/-- Whether a fix matched at least one element (sets `modified`). -/
def fixMatches (ast : List JSXElem) (fix : FixInstr) : Bool :=
  match fix.loc with
  | none => false
  | some loc =>
    if loc.line = 0 then false
    else ast.any (fun el => el.line == loc.line)

/-- src/core/patcher/react.ts `ReactPatcher.applyFixes`, parameterized by
the parsed tree `ast` (jscodeshift's parse of the source read from disk)
and `print` (`root.toSource()`): mutate the tree per fix and re-serialize
only if some fix matched a node, else return the original source. -/
def applyFixes (source : List Char) (ast : List JSXElem) (fixes : List FixInstr)
    (print : List JSXElem → List Char) : List Char :=
  let res := fixes.foldl (fun acc fix =>
    (applyFixAst acc.1 fix, acc.2 || fixMatches acc.1 fix)) (ast, false)
  if res.2 then print res.1 else source

theorem setAttr_nil (k v : String) :
    setAttr [] k v = [⟨some k, JSXAttrVal.strLit v⟩] := rfl

theorem setAttr_cons (a : JSXAttr) (rest : List JSXAttr) (k v : String) :
    setAttr (a :: rest) k v
      = if a.name = some k then ⟨a.name, JSXAttrVal.strLit v⟩ :: rest
        else a :: setAttr rest k v := rfl

theorem setAttr_idem (attrs : List JSXAttr) (k v : String) :
    setAttr (setAttr attrs k v) k v = setAttr attrs k v := by
  induction attrs with
  | nil =>
    rw [setAttr_nil, setAttr_cons, if_pos rfl]
  | cons a rest ih =>
    by_cases h : a.name = some k
    · rw [setAttr_cons, if_pos h, setAttr_cons, if_pos h]
    · rw [setAttr_cons, if_neg h, setAttr_cons, if_neg h, ih]

theorem lookupJsxAttr_setAttr (attrs : List JSXAttr) (k v : String) :
    lookupJsxAttr (setAttr attrs k v) k = some (JSXAttrVal.strLit v) := by
  induction attrs with
  | nil =>
    rw [setAttr_nil]
    simp [lookupJsxAttr, List.find?]
  | cons a rest ih =>
    by_cases h : a.name = some k
    · rw [setAttr_cons, if_pos h]
      unfold lookupJsxAttr
      rw [List.find?_cons_of_pos _ (by simpa using h)]
      rfl
    · rw [setAttr_cons, if_neg h]
      unfold lookupJsxAttr at ih ⊢
      rw [List.find?_cons_of_neg _ (by simpa using h)]
      exact ih

theorem applyFixToNode_line (el : JSXElem) (fix : FixInstr) :
    (applyFixToNode el fix).line = el.line := by
  unfold applyFixToNode
  cases fix.fixType <;> dsimp only
  case convertTag =>
    split <;> split <;> rfl
  all_goals rfl

theorem applyFixToNode_idem_addAttr (el : JSXElem) (fix : FixInstr)
    (hft : fix.fixType = FixType.addAttribute) :
    applyFixToNode (applyFixToNode el fix) fix = applyFixToNode el fix := by
  unfold applyFixToNode
  rw [hft]
  dsimp only
  rw [setAttr_idem]

theorem applyFixAst_line (ast : List JSXElem) (fix : FixInstr) (i : Nat) :
    ((applyFixAst ast fix).get? i).map JSXElem.line = (ast.get? i).map JSXElem.line := by
  unfold applyFixAst
  cases fix.loc with
  | none => rfl
  | some loc =>
    dsimp only
    split
    · rfl
    · rw [List.get?_map]
      cases ast.get? i with
      | none => rfl
      | some el =>
        dsimp only [Option.map]
        split
        · rw [applyFixToNode_line]
        · rfl

theorem any_congr_mem {α : Type} (l : List α) (p q : α → Bool)
    (h : ∀ a ∈ l, p a = q a) : l.any p = l.any q := by
  induction l with
  | nil => rfl
  | cons a rest ih =>
    simp only [List.any_cons, h a (List.mem_cons_self a rest),
      ih (fun x hx => h x (List.mem_cons_of_mem _ hx))]

theorem fixMatches_applyFixAst (ast : List JSXElem) (fix : FixInstr) :
    fixMatches (applyFixAst ast fix) fix = fixMatches ast fix := by
  unfold fixMatches applyFixAst
  cases fix.loc with
  | none => rfl
  | some loc =>
    dsimp only
    split
    · rfl
    · rw [List.any_map]
      apply any_congr_mem
      intro el _
      dsimp only [Function.comp]
      split
      · next h => simp [applyFixToNode_line, h]
      · rfl

theorem applyFixAst_idem_addAttr (ast : List JSXElem) (fix : FixInstr)
    (hft : fix.fixType = FixType.addAttribute) :
    applyFixAst (applyFixAst ast fix) fix = applyFixAst ast fix := by
  unfold applyFixAst
  cases fix.loc with
  | none => rfl
  | some loc =>
    dsimp only
    split
    · rfl
    · rw [List.map_map]
      apply List.map_congr_left
      intro el _
      dsimp only [Function.comp]
      split
      · next h =>
        rw [if_pos (by rw [applyFixToNode_line]; exact h),
          applyFixToNode_idem_addAttr el fix hft]
      · rfl

end ReactPatcher

/-! ## Validate / heal control flow of the scan command -/

/-- Observable calls of the per-file patch acceptance flow. -/
inductive PatchEvent
  | validate
  | heal
  | write
  deriving DecidableEq, BEq

/-- Per-file patch acceptance flow of the scan command (the
validate/heal/write section of the CLI `scan` action), instrumented with
the sequence of validate/heal/write calls.  `validate`/`heal` stand for
`Validator.validate` and `AutoHealer.heal`; `apply`/`verify` are the CLI
options and `apiKey` whether a heal oracle is configured.  Returns the
content written to disk (`none` when the patch is discarded or `--apply`
is off) and the event trace. -/
def processPatchedFile (apply verify apiKey : Bool) (content : List Char)
    (validate : List Char → Bool) (heal : List Char → List Char) :
    Option (List Char) × List PatchEvent :=
  if content = [] then (none, [])
  else if apply || verify then
    if validate content then
      if apply then (some content, [PatchEvent.validate, PatchEvent.write])
      else (none, [PatchEvent.validate])
    else if apiKey then
      let healed := heal content
      if validate healed then
        if apply then
          (some healed,
            [PatchEvent.validate, PatchEvent.heal, PatchEvent.validate, PatchEvent.write])
        else (none, [PatchEvent.validate, PatchEvent.heal, PatchEvent.validate])
      else (none, [PatchEvent.validate, PatchEvent.heal, PatchEvent.validate])
    else (none, [PatchEvent.validate])
  else if apply then (some content, [PatchEvent.write])
  else (none, [])

/-- C9 is false as stated: with no API key configured, a first failed
validation discards the patch immediately — `heal` is never called and
`validate` runs only once, not "healed and re-validated exactly once
more". -/
theorem validate_heal_counterexample :
    processPatchedFile true false false "x".data (fun _ => false) (fun c => c)
        = (none, [PatchEvent.validate]) ∧
    (processPatchedFile true false false "x".data (fun _ => false) (fun c => c)).2.count
        PatchEvent.heal = 0 ∧
    (processPatchedFile true false false "x".data (fun _ => false) (fun c => c)).2.count
        PatchEvent.validate = 1 := by
  decide

/-- C9 amended: for every patched file, validate is called at most twice
and heal at most once; a file is only written when `--apply` is set and its
written content passed validation; when a heal oracle (API key) is
configured, a first failed validation is followed by exactly one heal and
one re-validation; and a second failed validation discards the patch (the
file is never overwritten with content whose final validation failed). -/
theorem validate_heal_amended (apply verify apiKey : Bool) (content : List Char)
    (validate : List Char → Bool) (heal : List Char → List Char) :
    ((processPatchedFile apply verify apiKey content validate heal).2.count
        PatchEvent.validate ≤ 2 ∧
     (processPatchedFile apply verify apiKey content validate heal).2.count
        PatchEvent.heal ≤ 1) ∧
    (∀ c, (processPatchedFile apply verify apiKey content validate heal).1 = some c →
      apply = true ∧ validate c = true) ∧
    ((apply || verify) = true → content ≠ [] → validate content = false → apiKey = true →
      (processPatchedFile apply verify apiKey content validate heal).2.count
          PatchEvent.heal = 1 ∧
      (processPatchedFile apply verify apiKey content validate heal).2.count
          PatchEvent.validate = 2) ∧
    ((apply || verify) = true → validate content = false →
      validate (heal content) = false →
      (processPatchedFile apply verify apiKey content validate heal).1 = none) := by
  unfold processPatchedFile
  by_cases hc : content = []
  · rw [if_pos hc]
    refine ⟨⟨by decide, by decide⟩, ?_, ?_, ?_⟩
    · intro c h
      cases h
    · intro _ hne _ _
      exact absurd hc hne
    · intro _ _ _
      rfl
  · rw [if_neg hc]
    by_cases hav : (apply || verify) = true
    · rw [if_pos hav]
      by_cases hv1 : validate content = true
      · rw [if_pos hv1]
        by_cases ha : apply = true
        · rw [if_pos ha]
          dsimp only
          refine ⟨⟨by decide, by decide⟩, ?_, ?_, ?_⟩
          · intro c h
            cases h
            exact ⟨ha, hv1⟩
          · intro _ _ hcontra _
            simp [hv1] at hcontra
          · intro _ hcontra _
            simp [hv1] at hcontra
        · rw [if_neg ha]
          dsimp only
          refine ⟨⟨by decide, by decide⟩, ?_, ?_, ?_⟩
          · intro c h
            cases h
          · intro _ _ hcontra _
            simp [hv1] at hcontra
          · intro _ hcontra _
            simp [hv1] at hcontra
      · rw [if_neg hv1]
        by_cases hk : apiKey = true
        · rw [if_pos hk]
          by_cases hv2 : validate (heal content) = true
          · rw [if_pos hv2]
            by_cases ha : apply = true
            · rw [if_pos ha]
              dsimp only
              refine ⟨⟨by decide, by decide⟩, ?_, ?_, ?_⟩
              · intro c h
                cases h
                exact ⟨ha, hv2⟩
              · intro _ _ _ _
                exact ⟨by decide, by decide⟩
              · intro _ _ hcontra
                simp [hv2] at hcontra
            · rw [if_neg ha]
              dsimp only
              refine ⟨⟨by decide, by decide⟩, ?_, ?_, ?_⟩
              · intro c h
                cases h
              · intro _ _ _ _
                exact ⟨by decide, by decide⟩
              · intro _ _ hcontra
                simp [hv2] at hcontra
          · rw [if_neg hv2]
            dsimp only
            refine ⟨⟨by decide, by decide⟩, ?_, ?_, ?_⟩
            · intro c h
              cases h
            · intro _ _ _ _
              exact ⟨by decide, by decide⟩
            · intro _ _ _
              rfl
        · rw [if_neg hk]
          dsimp only
          refine ⟨⟨by decide, by decide⟩, ?_, ?_, ?_⟩
          · intro c h
            cases h
          · intro _ _ _ hcontra
            exact absurd hcontra hk
          · intro _ _ _
            rfl
    · rw [if_neg hav]
      have ha : apply = false := by
        cases apply
        · rfl
        · exact absurd (by simp) hav
      rw [ha] at hav ⊢
      simp only [Bool.false_eq_true, if_false]
      refine ⟨⟨by decide, by decide⟩, ?_, ?_, ?_⟩
      · intro c h
        cases h
      · intro hcontra _ _ _
        exact absurd hcontra hav
      · intro hcontra _ _
        exact absurd hcontra hav

/-- Witness for the amended C9: heal path exercised with an oracle that
repairs the content, ending in a write of the healed content. -/
theorem validate_heal_amended_witness :
    ((processPatchedFile true true true "x".data (fun c => c = "y".data)
        (fun _ => "y".data)).2.count PatchEvent.validate ≤ 2 ∧
     (processPatchedFile true true true "x".data (fun c => c = "y".data)
        (fun _ => "y".data)).2.count PatchEvent.heal ≤ 1) ∧
    (∀ c, (processPatchedFile true true true "x".data (fun c => c = "y".data)
        (fun _ => "y".data)).1 = some c →
      true = true ∧ (c = "y".data : Bool) = true) ∧
    ((true || true) = true → "x".data ≠ [] → ("x".data = "y".data : Bool) = false →
      true = true →
      (processPatchedFile true true true "x".data (fun c => c = "y".data)
          (fun _ => "y".data)).2.count PatchEvent.heal = 1 ∧
      (processPatchedFile true true true "x".data (fun c => c = "y".data)
          (fun _ => "y".data)).2.count PatchEvent.validate = 2) ∧
    ((true || true) = true → ("x".data = "y".data : Bool) = false →
      ("y".data = "y".data : Bool) = false →
      (processPatchedFile true true true "x".data (fun c => c = "y".data)
          (fun _ => "y".data)).1 = none) :=
  validate_heal_amended true true true "x".data (fun c => c = "y".data) (fun _ => "y".data)

theorem react_applyFixes_single (source : List Char) (ast : List JSXElem)
    (fix : FixInstr) (print : List JSXElem → List Char) :
    ReactPatcher.applyFixes source ast [fix] print
      = if ReactPatcher.fixMatches ast fix then print (ReactPatcher.applyFixAst ast fix)
        else source := by
  unfold ReactPatcher.applyFixes
  simp only [List.foldl_cons, List.foldl_nil, Bool.false_or]

/-- C4: applying the same add-attribute fix twice in sequence yields the
same text as applying it once, for each patch strategy.  For the
offset-based HTML strategy the second pass sees (per the parser's report of
its own output) the attribute already present with exactly the spliced-in
`name="value"` span, and overwrites it with the identical text; for the
line/column Vue strategy the second pass detects `name=` on the target line
and skips (the attribute name must not contain a newline); for the
AST-based JSX strategy the second pass reparses the printed tree, finds the
attribute already present, and rewrites it to the identical value. -/
theorem add_attribute_idempotent :
    (∀ (html : List Char) (fix : FixInstr) (resolve1 resolve2 : FixInstr → Option TagLoc)
       (loc2 : TagLoc) (sp : Span),
      fix.fixType = FixType.addAttribute →
      resolve2 fix = some loc2 →
      lookupSpan loc2.attrs (String.mk (lowerChars fix.payload.attr.data)) = some sp →
      sp.startOffset ≤ sp.endOffset →
      sp.endOffset ≤ (TargetedPatcher.applyFixes html [fix] resolve1).length →
      ((TargetedPatcher.applyFixes html [fix] resolve1).take sp.endOffset).drop
          sp.startOffset = attrText fix.payload.attr fix.payload.value →
      TargetedPatcher.applyFixes (TargetedPatcher.applyFixes html [fix] resolve1)
          [fix] resolve2
        = TargetedPatcher.applyFixes html [fix] resolve1) ∧
    (∀ (source : List Char) (fix : FixInstr),
      fix.fixType = FixType.addAttribute →
      '\n' ∉ fix.payload.attr.data →
      VuePatcher.applyFixes (VuePatcher.applyFixes source [fix]) [fix]
        = VuePatcher.applyFixes source [fix]) ∧
    (∀ (source : List Char) (ast : List JSXElem) (fix : FixInstr)
       (print : List JSXElem → List Char),
      fix.fixType = FixType.addAttribute →
      ReactPatcher.applyFixes (ReactPatcher.applyFixes source ast [fix] print)
          (if ReactPatcher.fixMatches ast fix = true then ReactPatcher.applyFixAst ast fix
           else ast) [fix] print
        = ReactPatcher.applyFixes source ast [fix] print) := by
  refine ⟨?_, ?_, ?_⟩
  · intro html fix resolve1 resolve2 loc2 sp hft hres hsp hle hlen hextract
    rw [applyFixes_single _ fix resolve2 loc2 hres,
      fixReplacements_existing _ fix loc2 sp hft hsp, spliceAll_singleton]
    show (TargetedPatcher.applyFixes html [fix] resolve1).take sp.startOffset
        ++ attrText fix.payload.attr fix.payload.value
        ++ (TargetedPatcher.applyFixes html [fix] resolve1).drop sp.endOffset = _
    rw [← hextract, List.append_assoc]
    have hts : (((TargetedPatcher.applyFixes html [fix] resolve1).take sp.endOffset).drop
          sp.startOffset)
        = ((TargetedPatcher.applyFixes html [fix] resolve1).take sp.endOffset).drop
          sp.startOffset := rfl
    exact take_extract_drop _ sp.startOffset sp.endOffset hle hlen
  · exact vue_addAttr_idempotent
  · intro source ast fix print hft
    by_cases hm : ReactPatcher.fixMatches ast fix = true
    · rw [if_pos hm, react_applyFixes_single source ast fix print, if_pos hm]
      rw [react_applyFixes_single (print (ReactPatcher.applyFixAst ast fix))
        (ReactPatcher.applyFixAst ast fix) fix print]
      rw [ReactPatcher.fixMatches_applyFixAst, if_pos hm,
        ReactPatcher.applyFixAst_idem_addAttr ast fix hft]
    · rw [if_neg hm]
      have h1 : ReactPatcher.applyFixes source ast [fix] print = source := by
        rw [react_applyFixes_single, if_neg hm]
      rw [h1]
      exact h1

def c4hFix : FixInstr := ⟨FixType.addAttribute, "img", ⟨"alt", "x", "", []⟩, none⟩

def c4hLoc1 : TagLoc := ⟨⟨0, 17⟩, none, [("src", ⟨5, 16⟩)]⟩

def c4hLoc2 : TagLoc := ⟨⟨0, 25⟩, none, [("src", ⟨5, 16⟩), ("alt", ⟨17, 24⟩)]⟩

def c4vFix : FixInstr :=
  ⟨FixType.addAttribute, "img", ⟨"alt", "x", "", []⟩, some ⟨1, 0, none⟩⟩

def c4rFix : FixInstr :=
  ⟨FixType.addAttribute, "img", ⟨"alt", "x", "", []⟩, some ⟨3, 0, none⟩⟩

def c4rAst : List JSXElem := [⟨3, "img", true, [], none⟩]

/-- Witness for C4 at concrete inputs for all three strategies. -/
theorem add_attribute_idempotent_witness :
    TargetedPatcher.applyFixes
        (TargetedPatcher.applyFixes "<img src=\"a.png\">".data [c4hFix]
          (fun _ => some c4hLoc1)) [c4hFix] (fun _ => some c4hLoc2)
      = TargetedPatcher.applyFixes "<img src=\"a.png\">".data [c4hFix]
          (fun _ => some c4hLoc1) ∧
    VuePatcher.applyFixes
        (VuePatcher.applyFixes "<img src=\"a.png\">".data [c4vFix]) [c4vFix]
      = VuePatcher.applyFixes "<img src=\"a.png\">".data [c4vFix] ∧
    ReactPatcher.applyFixes
        (ReactPatcher.applyFixes "<img src={s} />".data c4rAst [c4rFix]
          (fun _ => "<img src={s} alt=\"x\" />".data))
        (if ReactPatcher.fixMatches c4rAst c4rFix = true
         then ReactPatcher.applyFixAst c4rAst c4rFix else c4rAst) [c4rFix]
        (fun _ => "<img src={s} alt=\"x\" />".data)
      = ReactPatcher.applyFixes "<img src={s} />".data c4rAst [c4rFix]
          (fun _ => "<img src={s} alt=\"x\" />".data) :=
  ⟨add_attribute_idempotent.1 "<img src=\"a.png\">".data c4hFix
      (fun _ => some c4hLoc1) (fun _ => some c4hLoc2) c4hLoc2 ⟨17, 24⟩
      rfl rfl (by decide) (by decide) (by decide) (by decide),
   add_attribute_idempotent.2.1 "<img src=\"a.png\">".data c4vFix rfl (by decide),
   add_attribute_idempotent.2.2 "<img src={s} />".data c4rAst c4rFix
      (fun _ => "<img src={s} alt=\"x\" />".data) rfl⟩

theorem applyFixToNode_openName (el : JSXElem) (fix : FixInstr)
    (hft : fix.fixType = FixType.convertTag) (hid : el.openIsIdent = true) :
    (ReactPatcher.applyFixToNode el fix).openName = fix.payload.tagName := by
  unfold ReactPatcher.applyFixToNode
  rw [hft]
  dsimp only
  rw [if_pos hid]
  split <;> rfl

/-- C10: in the AST-based JSX strategy, a fix whose resolved location names
line L applies to every JSX element whose start line equals L — if several
elements begin on the same line, all receive the attribute addition or tag
conversion in one pass — while elements on other lines are untouched. -/
theorem react_line_match_all (ast : List JSXElem) (fix : FixInstr) (loc : SourceLoc)
    (hloc : fix.loc = some loc) (hline : loc.line ≠ 0) :
    (∀ i el, ast.get? i = some el → el.line = loc.line →
      fix.fixType = FixType.addAttribute →
      ∃ el2, (ReactPatcher.applyFixAst ast fix).get? i = some el2 ∧
        lookupJsxAttr el2.attrs fix.payload.attr
          = some (JSXAttrVal.strLit fix.payload.value)) ∧
    (∀ i el, ast.get? i = some el → el.line = loc.line →
      fix.fixType = FixType.convertTag → el.openIsIdent = true →
      ∃ el2, (ReactPatcher.applyFixAst ast fix).get? i = some el2 ∧
        el2.openName = fix.payload.tagName) ∧
    (∀ i el, ast.get? i = some el → ¬(el.line = loc.line) →
      (ReactPatcher.applyFixAst ast fix).get? i = some el) := by
  have hast : ∀ i el, ast.get? i = some el →
      (ReactPatcher.applyFixAst ast fix).get? i
        = some (if el.line = loc.line then ReactPatcher.applyFixToNode el fix else el) := by
    intro i el hel
    unfold ReactPatcher.applyFixAst
    rw [hloc]
    dsimp only
    rw [if_neg hline, List.get?_map, hel]
    rfl
  refine ⟨?_, ?_, ?_⟩
  · intro i el hel hlineEq hft
    refine ⟨ReactPatcher.applyFixToNode el fix, ?_, ?_⟩
    · rw [hast i el hel, if_pos hlineEq]
    · unfold ReactPatcher.applyFixToNode
      rw [hft]
      dsimp only
      exact ReactPatcher.lookupJsxAttr_setAttr el.attrs fix.payload.attr fix.payload.value
  · intro i el hel hlineEq hft hid
    refine ⟨ReactPatcher.applyFixToNode el fix, ?_, ?_⟩
    · rw [hast i el hel, if_pos hlineEq]
    · exact applyFixToNode_openName el fix hft hid
  · intro i el hel hlineNe
    rw [hast i el hel, if_neg hlineNe]

def c10ast : List JSXElem := [⟨7, "img", true, [], none⟩, ⟨7, "a", true, [], none⟩]

def c10fix : FixInstr :=
  ⟨FixType.addAttribute, "img", ⟨"alt", "logo", "", []⟩, some ⟨7, 0, none⟩⟩

/-- Witness for C10: two JSX elements starting on line 7 both receive the
attribute in one pass. -/
theorem react_line_match_all_witness :
    (∃ el2, (ReactPatcher.applyFixAst c10ast c10fix).get? 0 = some el2 ∧
      lookupJsxAttr el2.attrs "alt" = some (JSXAttrVal.strLit "logo")) ∧
    (∃ el2, (ReactPatcher.applyFixAst c10ast c10fix).get? 1 = some el2 ∧
      lookupJsxAttr el2.attrs "alt" = some (JSXAttrVal.strLit "logo")) :=
  ⟨(react_line_match_all c10ast c10fix ⟨7, 0, none⟩ rfl (by decide)).1
      0 ⟨7, "img", true, [], none⟩ rfl rfl rfl,
   (react_line_match_all c10ast c10fix ⟨7, 0, none⟩ rfl (by decide)).1
      1 ⟨7, "a", true, [], none⟩ rfl rfl rfl⟩
